import Mathlib

/-!
Shallow embedding of the deck-builder core (`deck_builder.py`): the catalog
row type, the color/type sort-key function, the card filter engine, the deck
codec (serialization to the line-oriented text format and the text-import
parser acting on the session state), and the card-grid portion of the image
compositor.  Python strings are modelled as `List Char`; the Python string
operations used by the source (`strip`, `split`, `in`, `startswith`, `int`,
f-string formatting of integers) are given explicit executable models below.
-/

/-- Python strings, modelled as lists of characters. -/
abbrev Str := List Char

/-- Shorthand: the character list of a Lean string literal. -/
def toL (s : String) : Str := s.toList

/-- Python `s.lstrip()` (whitespace only). -/
def pyLStrip (s : Str) : Str := s.dropWhile Char.isWhitespace

/-- Python `s.rstrip()` (whitespace only). -/
def pyRStrip (s : Str) : Str := ((s.reverse).dropWhile Char.isWhitespace).reverse

/-- Python `s.strip()` (whitespace only; the source only ever strips
whitespace). -/
def pyStrip (s : Str) : Str := pyRStrip (pyLStrip s)

/-- Python `sub in s`: `sub` occurs as a contiguous substring of `s`.
(`s.tails` includes the empty suffix, so the empty pattern always matches,
as in Python.) -/
def pyIn (sub s : Str) : Bool := s.tails.any fun t => sub.isPrefixOf t

/-- Python `s.split(sep)` for a one-character separator `c`
(`List.splitOn` has exactly the Python semantics: empty pieces kept,
`"".split(c) == [""]`). -/
def splitOnChar (c : Char) (s : Str) : List Str := s.splitOn c

/-- Split at every character satisfying `p` (empty pieces kept). -/
def splitOnPred (p : Char → Bool) : Str → List Str
  | [] => [[]]
  | a :: rest =>
    if p a then [] :: splitOnPred p rest
    else
      match splitOnPred p rest with
      | [] => [[a]]
      | r :: rs => (a :: r) :: rs

/-- Python `s.split()` (no argument): split on whitespace runs, dropping
empty pieces (equivalently: split at every whitespace character and drop
the empty pieces). -/
def pySplitWs (s : Str) : List Str :=
  (splitOnPred Char.isWhitespace s).filter (· ≠ [])

/-- The value of a non-empty all-digits string, base 10. -/
def digitsVal (s : Str) : Nat := s.foldl (fun n c => 10 * n + (c.toNat - 48)) 0

/-- A non-empty all-digits string and its value; `none` otherwise. -/
def digitsOnly (s : Str) : Option Nat :=
  if s ≠ [] ∧ s.all Char.isDigit then some (digitsVal s) else none

/-- Python `int(s)`: strip whitespace, optional single sign, then one or
more decimal digits; anything else raises (`none`).  (Underscore digit
grouping, accepted by Python, is not modelled; no input in this
development uses it.) -/
def pyInt (s : Str) : Option Int :=
  if (pyStrip s).head? = some '-' then
    (digitsOnly ((pyStrip s).drop 1)).map fun n => -Int.ofNat n
  else if (pyStrip s).head? = some '+' then
    (digitsOnly ((pyStrip s).drop 1)).map Int.ofNat
  else (digitsOnly (pyStrip s)).map Int.ofNat

/-- Digit-string builder with explicit fuel (`fuel > n` always holds at
call sites, so the fuel never runs out); structural recursion keeps the
function computable by the kernel. -/
def natToStrAux : Nat → Nat → Str
  | 0, _ => []
  | fuel + 1, n =>
    if n < 10 then [Char.ofNat (48 + n)]
    else natToStrAux fuel (n / 10) ++ [Char.ofNat (48 + n % 10)]

/-- The decimal digit string of a natural number (no sign, no padding),
as produced by Python `str`/f-string formatting. -/
def natToStr (n : Nat) : Str := natToStrAux (n + 1) n

/-- Python `str(n)` / `f"{n}"` for an `int`. -/
def intToStr (n : Int) : Str :=
  if n < 0 then '-' :: natToStr n.natAbs else natToStr n.toNat

-- ===============================================================
-- Data model: a normalized catalog row (the columns of the working
-- dataframe that the deck-builder core reads).
-- ===============================================================

/-- A normalized catalog row.  Field names follow the dataframe columns:
`id` = カードID, `name` = カード名, `color` = 色, `ctype` = タイプ,
`cost` = コスト数値, `counter` = カウンター, `attributeList` = 属性リスト,
`blockIcon` = ブロックアイコン, `featuresRaw` = 特徴 (the raw string,
used by free-word search), `featureList` = 特徴リスト, `seriesId` =
シリーズID, `text` = テキスト, `trigger` = トリガー. -/
structure Card where
  id : Str
  name : Str
  color : Str
  ctype : Str
  cost : Nat
  counter : Str
  attributeList : List Str
  blockIcon : Str
  featuresRaw : Str
  featureList : List Str
  seriesId : Str
  text : Str
  trigger : Str
deriving DecidableEq, Repr

/-- `color_order = ["赤", "緑", "青", "紫", "黒", "黄"]`. -/
def colorOrder : List Str := [toL "赤", toL "緑", toL "青", toL "紫", toL "黒", toL "黄"]

/-- `color_priority[c]` = the index of `c` in `color_order` (the source
builds this dict by enumeration, so it coincides with `list.index`). -/
def colorPriority (c : Str) : Nat := colorOrder.indexOf c

/-- `type_priority.get(t, 9)`. -/
def typePriority (t : Str) : Nat :=
  if t = toL "LEADER" then 0
  else if t = toL "CHARACTER" then 1
  else if t = toL "EVENT" then 2
  else if t = toL "STAGE" then 3
  else 9

/-- `color_sort_key(row)`: the 4-tuple
`(base_priority, type_rank, sub_priority, multi_flag)` computed from the
row's 色 (`text`) and タイプ (`t`) columns. -/
def colorSortKey (text t : Str) : Nat × Nat × Nat × Nat :=
  if pyStrip text = toL "-" ∨ pyStrip text = [] then (999, 999, 999, 999)
  else
    let foundColors := colorOrder.filter fun c => pyIn c text
    match foundColors with
    | [] => (999, 999, 999, 999)
    | firstColor :: _ =>
      let basePriority := colorPriority firstColor
      let isMulti := pyIn (toL "/") text || pyIn (toL "／") text
      let subColors := colorOrder.filter fun c => pyIn c text && c ≠ firstColor
      let subPriority :=
        if isMulti ∧ subColors ≠ [] then colorOrder.indexOf subColors.headI + 1 else 0
      let multiFlag := if isMulti then 1 else 0
      (basePriority, typePriority t, subPriority, multiFlag)

/-- The precomputed ソートキー column of a row. -/
def Card.sortKey (c : Card) : Nat × Nat × Nat × Nat := colorSortKey c.color c.ctype

-- ===============================================================
-- Orderings used by the sorts (Python tuple comparison, ascending)
-- ===============================================================

/-- Python `<` on strings: lexicographic by code point. -/
def strLt : Str → Str → Bool
  | [], [] => false
  | [], _ :: _ => true
  | _ :: _, [] => false
  | a :: s, b :: t => if a = b then strLt s t else decide (a < b)

/-- Python `<=` on strings. -/
def strLe (s t : Str) : Bool := strLt s t || decide (s = t)

/-- Python `<=` on 4-tuples of ints (lexicographic), used to sort the
ソートキー column. -/
def nat4Le (a b : Nat × Nat × Nat × Nat) : Bool :=
  if a.1 ≠ b.1 then decide (a.1 < b.1)
  else if a.2.1 ≠ b.2.1 then decide (a.2.1 < b.2.1)
  else if a.2.2.1 ≠ b.2.2.1 then decide (a.2.2.1 < b.2.2.1)
  else decide (a.2.2.2 ≤ b.2.2.2)

/-- The `sort_values(by=["ソートキー", "コスト数値", "カードID"])` comparison
key of a row, and its lexicographic comparison. -/
def fkeyLe (a b : (Nat × Nat × Nat × Nat) × Nat × Str) : Bool :=
  if a.1 ≠ b.1 then nat4Le a.1 b.1
  else if a.2.1 ≠ b.2.1 then decide (a.2.1 < b.2.1)
  else strLe a.2.2 b.2.2

/-- Row comparison used for every filter result listing. -/
def fcardLe (c₁ c₂ : Card) : Bool :=
  fkeyLe (c₁.sortKey, c₁.cost, c₁.id) (c₂.sortKey, c₂.cost, c₂.id)

/-- Python `<=` on the deck-display sort key
`(type_rank, cost, base_priority, card_id)`. -/
def dkeyLe (a b : Nat × Nat × Nat × Str) : Bool :=
  if a.1 ≠ b.1 then decide (a.1 < b.1)
  else if a.2.1 ≠ b.2.1 then decide (a.2.1 < b.2.1)
  else if a.2.2.1 ≠ b.2.2.1 then decide (a.2.2.1 < b.2.2.1)
  else strLe a.2.2.2 b.2.2.2

-- ===============================================================
-- Filter engine (`filter_cards`)
-- ===============================================================

/-- `df[df["カードID"] == card_id].iloc[0]`: the first catalog row with the
given id (`none` when the selection is empty, where the source raises). -/
def findCard (df : List Card) (cid : Str) : Option Card :=
  df.find? fun c => decide (c.id = cid)

/-- pandas `Series.str.contains(pat, case=False, na=False)`; `regex=True`
is the pandas default, so `pat` is an IGNORECASE regular expression.
Modelled for patterns built from ordinary characters and the
metacharacter `.` (which matches any character except a newline);
case-insensitivity is modelled as ASCII `Char.toLower` folding.  Every
pattern appearing in this development stays inside this fragment. -/
def regexLiteAt : Str → Str → Bool
  | [], _ => true
  | _ :: _, [] => false
  | p :: ps, c :: cs =>
    ((decide (p = '.') && decide (c ≠ '\n')) || decide (p.toLower = c.toLower)) &&
      regexLiteAt ps cs

/-- `re.search(pat, s, re.IGNORECASE)` succeeds somewhere in `s`. -/
def pdStrContains (pat s : Str) : Bool := s.tails.any fun t => regexLiteAt pat t

/-- One free-word keyword matches a row iff it matches any of the four
text columns カード名 / 特徴 / テキスト / トリガー. -/
def keywordHits (k : Str) (c : Card) : Bool :=
  pdStrContains k c.name || pdStrContains k c.featuresRaw ||
    pdStrContains k c.text || pdStrContains k c.trigger

/-- `filter_cards(df, colors, types, costs, counters, attributes, blocks,
feature_selected, free_words, series_ids, leader_colors)`.  Each predicate
applies only when its argument is truthy, in source order; the result is
sorted by `(ソートキー, コスト数値, カードID)` ascending. -/
def filterCards (df : List Card) (colors types : List Str) (costs : List Nat)
    (counters : List Str) (attributes : List Str) (blocks : List Str)
    (featureSelected : List Str) (freeWords : Str) (seriesIds : List Str)
    (leaderColors : Option (List Str)) : List Card :=
  let r₀ := df
  let r₁ :=
    if leaderColors.getD [] ≠ [] then
      (r₀.filter fun c => decide (c.ctype ≠ toL "LEADER")).filter
        fun c => (leaderColors.getD []).any fun lc => pyIn lc c.color
    else r₀
  let r₂ := if colors ≠ [] then r₁.filter (fun c => colors.any fun col => pyIn col c.color) else r₁
  let r₃ := if types ≠ [] then r₂.filter (fun c => decide (c.ctype ∈ types)) else r₂
  let r₄ := if costs ≠ [] then r₃.filter (fun c => decide (c.cost ∈ costs)) else r₃
  let r₅ := if counters ≠ [] then r₄.filter (fun c => decide (c.counter ∈ counters)) else r₄
  let r₆ :=
    if attributes ≠ [] then
      r₅.filter (fun c => attributes.any fun attr => decide (attr ∈ c.attributeList))
    else r₅
  let r₇ := if blocks ≠ [] then r₆.filter (fun c => decide (c.blockIcon ∈ blocks)) else r₆
  let r₈ := if seriesIds ≠ [] then r₇.filter (fun c => decide (c.seriesId ∈ seriesIds)) else r₇
  let r₉ :=
    if featureSelected ≠ [] then
      r₈.filter (fun c => featureSelected.any fun f => decide (f ∈ c.featureList))
    else r₈
  let r₁₀ := (pySplitWs freeWords).foldl (fun r k => r.filter (keywordHits k)) r₉
  List.insertionSort (fun c₁ c₂ => fcardLe c₁ c₂ = true) r₁₀

-- ===============================================================
-- Deck codec: serialization
-- ===============================================================

/-- The record built per deck entry before sorting (`card_id`, `count`,
`new_sort_key`). -/
structure DeckRow where
  cardId : Str
  count : Int
  key : Nat × Nat × Nat × Str
deriving DecidableEq, Repr

/-- `new_sort_key = (type_rank, cost, base_priority, card_id)` where
`(base_priority, type_rank, _, _)` is the row's ソートキー. -/
def deckRow (c : Card) (cid : Str) (count : Int) : DeckRow :=
  { cardId := cid, count := count, key := (c.sortKey.2.1, c.cost, c.sortKey.1, cid) }

/-- Build the per-entry records from the deck mapping, in insertion order;
`none` when some entry's card id is absent from the catalog (where the
source raises on `.iloc[0]`). -/
def deckRowsOf (df : List Card) : List (Str × Int) → Option (List DeckRow)
  | [] => some []
  | (cid, cnt) :: rest =>
    match findCard df cid with
    | none => none
    | some c => (deckRowsOf df rest).map fun rs => deckRow c cid cnt :: rs

/-- `deck_cards_sorted.sort(key=lambda x: x["new_sort_key"])`.  Python's
`list.sort` is a stable sort ascending by the key; every call in the source
sorts records whose keys are pairwise distinct (dict keys are unique and the
key ends in the card id), so the sorted result is unique and the choice of
sorting algorithm is immaterial; insertion sort is used here. -/
def sortDeckRows (rows : List DeckRow) : List DeckRow :=
  List.insertionSort (fun r₁ r₂ => dkeyLe r₁.key r₂.key = true) rows

/-- `f"{count}x{card_id}"`. -/
def entryLine (r : DeckRow) : Str := intToStr r.count ++ 'x' :: r.cardId

/-- `f"1x{leader['カードID']}"`. -/
def leaderLineOf (leaderId : Str) : Str := '1' :: 'x' :: leaderId

/-- `f"# {deck_name}"`. -/
def nameLineOf (deckName : Str) : Str := '#' :: ' ' :: deckName

/-- `"\n".join(lines)`. -/
def joinNL (ls : List Str) : Str := List.intercalate ['\n'] ls

/-- The deck serialization shared by export, local save and the image/QR
payload: optional `# name` line (only when the name is truthy), the
`1x<leader id>` line, then one `"{count}x{card_id}"` line per entry in
deck-display order. -/
def serializeDeck (df : List Card) (leader : Card) (deck : List (Str × Int))
    (deckName : Str) : Option Str :=
  (deckRowsOf df deck).map fun rows =>
    joinNL ((if deckName ≠ [] then [nameLineOf deckName] else []) ++
      leaderLineOf leader.id :: (sortDeckRows rows).map entryLine)

-- ===============================================================
-- Session state and the text import (`📥 インポート実行` handler)
-- ===============================================================

/-- The session fields a deck import touches: `st.session_state["leader"]`,
`["deck"]` (a Python dict, modelled as an insertion-ordered association
list with unique keys), `["deck_name"]` and `["deck_view"]`. -/
structure SessionState where
  leader : Option Card
  deck : List (Str × Int)
  deckName : Str
  deckView : Str
deriving DecidableEq, Repr

/-- Which check rejected an import (the source reports all of these to the
sidebar; the first and last come from the caught `ValueError`s). -/
inductive ImportError
  | emptyList
  | badLeaderLine
  | leaderNotFound
  | badEntryLine
deriving DecidableEq, Repr

/-- What the import handler reported: success, a reported failure, or
nothing at all (the handler fell through without importing). -/
inductive ImportOutcome
  | success
  | failure (e : ImportError)
  | noop
deriving DecidableEq, Repr

/-- Python dict assignment `d[k] = v`: overwrite in place when the key is
present, else append at the end. -/
def dictSet (d : List (Str × Int)) (k : Str) (v : Int) : List (Str × Int) :=
  if d.any fun p => decide (p.1 = k) then
    d.map fun p => if p.1 = k then (k, v) else p
  else d ++ [(k, v)]

/-- Python dict lookup `d.get(k)`. -/
def dictGet? (d : List (Str × Int)) (k : Str) : Option Int :=
  (d.find? fun p => decide (p.1 = k)).map Prod.snd

/-- `[line.strip() for line in text.strip().split("\n") if line.strip()]`. -/
def pyLines (t : Str) : List Str :=
  ((splitOnChar '\n' (pyStrip t)).map pyStrip).filter (· ≠ [])

/-- The entry-line loop of the importer, starting from the just-reset deck
dict: a line without `x` is skipped; a line with `x` is split on every
`x` and unpacked into `(count, card_id)` — a `ValueError` (more than one
`x`, or a count `int()` cannot parse) aborts the loop (`false`); an
unknown `card_id` is silently dropped; otherwise `deck[card_id] = count`. -/
def applyEntryLines (df : List Card) (deck : List (Str × Int)) :
    List Str → List (Str × Int) × Bool
  | [] => (deck, true)
  | line :: rest =>
    if 'x' ∈ line then
      match splitOnChar 'x' line with
      | [countStr, cid] =>
        match pyInt countStr with
        | some n =>
          applyEntryLines df
            (if (findCard df cid).isSome then dictSet deck cid n else deck) rest
        | none => (deck, false)
      | _ => (deck, false)
    else applyEntryLines df deck rest

/-- `st.session_state["deck_view"] = "preview"` on success. -/
def previewView : Str := toL "preview"

/-- The import steps after the optional `# name` line was consumed:
`rest` are the remaining lines, `importedName` the parsed name.  The
mandatory leader line must contain `x` and split into exactly two pieces;
its count piece is never inspected.  Only once the leader row is found are
`leader` / `deck` / `deck_name` overwritten; a later entry-line error
leaves that partial state in place. -/
def textImportBody (df : List Card) (st : SessionState) (importedName : Str) :
    List Str → SessionState × ImportOutcome
  | [] => (st, .noop)
  | firstLine :: entryLines =>
    if 'x' ∉ firstLine then (st, .failure .badLeaderLine)
    else
      match splitOnChar 'x' firstLine with
      | [_leaderCount, leaderId] =>
        match findCard df leaderId with
        | none => (st, .failure .leaderNotFound)
        | some c =>
          let st₁ : SessionState :=
            { leader := some c, deck := [], deckName := importedName,
              deckView := st.deckView }
          match applyEntryLines df [] entryLines with
          | (d, true) => ({ st₁ with deck := d, deckView := previewView }, .success)
          | (d, false) => ({ st₁ with deck := d }, .failure .badEntryLine)
      | _ => (st, .failure .badLeaderLine)

/-- The full text-import handler: empty input is a no-op warning; the text
is split into stripped non-empty lines; a first line starting with `#`
carries the deck name; then `textImportBody`. -/
def textImport (df : List Card) (st : SessionState) (text : Str) :
    SessionState × ImportOutcome :=
  if pyStrip text = [] then (st, .noop)
  else
    match pyLines text with
    | [] => (st, .failure .emptyList)
    | l₀ :: ls =>
      if l₀.head? = some '#' then textImportBody df st (pyStrip (l₀.drop 1)) ls
      else textImportBody df st [] (l₀ :: ls)

-- ===============================================================
-- Image compositor: the card grid (`create_deck_image`, lower band)
-- ===============================================================

def finalWidth : Nat := 2150

def finalHeight : Nat := 2048

def gridHeight : Nat := 1500

def upperHeight : Nat := finalHeight - gridHeight

def cardWidth : Nat := 215

def cardHeight : Nat := 300

def cardsPerRow : Nat := 10

def cardsPerCol : Nat := 5

def marginCard : Nat := 0

/-- `y_start = UPPER_HEIGHT`. -/
def yStart : Nat := upperHeight

/-- `x_start = (FINAL_WIDTH - (card_width * cards_per_row + margin_card *
(cards_per_row - 1))) // 2`. -/
def xStart : Nat := (finalWidth - (cardWidth * cardsPerRow + marginCard * (cardsPerRow - 1))) / 2

/-- `all_deck_cards`: the sorted entries expanded into a flat sequence of
card ids, each repeated `count` times (a non-positive Python count
contributes an empty repetition, as `[x] * n` does). -/
def allDeckCards (rows : List DeckRow) : List Str :=
  ((sortDeckRows rows).map fun r => List.replicate r.count.toNat r.cardId).flatten

/-- `cards_to_download = set(all_deck_cards[:cards_per_row * cards_per_col])`:
the distinct card ids among the first 50 grid cards, each fetched once. -/
def cardsToDownload (rows : List DeckRow) : List Str :=
  ((allDeckCards rows).take (cardsPerRow * cardsPerCol)).dedup

/-- The grid cells the compositor pastes: for index `idx` (`break` at
`cards_per_row * cards_per_col`), the card id, `(row, col) = (idx // 10,
idx % 10)` and the pixel position `(x, y)`. -/
def gridPlacements (rows : List DeckRow) : List (Str × Nat × Nat × Nat × Nat) :=
  ((allDeckCards rows).take (cardsPerRow * cardsPerCol)).enum.map fun p =>
    (p.2, p.1 / cardsPerRow, p.1 % cardsPerRow,
      xStart + (p.1 % cardsPerRow) * (cardWidth + marginCard),
      yStart + (p.1 / cardsPerRow) * (cardHeight + marginCard))

/-- The deck-list text built inside `create_deck_image` (lines 241-261);
the block is the same computation as the export serialization. -/
def imageDeckText (df : List Card) (leader : Card) (deck : List (Str × Int))
    (deckName : Str) : Option Str :=
  serializeDeck df leader deck deckName

-- ===============================================================
-- Basic facts about the string models
-- ===============================================================

/-- The ten decimal digit characters: digits, not whitespace, and distinct
from every delimiter the codec cares about. -/
theorem digitChar_facts : ∀ d < 10, (Char.ofNat (48 + d)).isDigit = true ∧
    (Char.ofNat (48 + d)).toNat = 48 + d ∧ (Char.ofNat (48 + d)).isWhitespace = false ∧
    Char.ofNat (48 + d) ≠ 'x' ∧ Char.ofNat (48 + d) ≠ '\n' ∧
    Char.ofNat (48 + d) ≠ '-' ∧ Char.ofNat (48 + d) ≠ '+' ∧
    Char.ofNat (48 + d) ≠ '#' := by decide

theorem natToStrAux_mem : ∀ {fuel n : Nat} {c : Char}, n < fuel →
    c ∈ natToStrAux fuel n → ∃ d, d < 10 ∧ c = Char.ofNat (48 + d) := by
  intro fuel
  induction fuel with
  | zero => intro n c h _; omega
  | succ fuel ih =>
    intro n c hn hc
    rw [natToStrAux] at hc
    split at hc
    · next h => exact ⟨n, h, by simpa using hc⟩
    · next h =>
      rcases List.mem_append.1 hc with h₁ | h₂
      · exact ih (by
          have := Nat.div_lt_self (show 0 < n by omega) (show 1 < 10 by omega)
          omega) h₁
      · exact ⟨n % 10, Nat.mod_lt _ (by omega), by simpa using h₂⟩

theorem natToStr_mem {n : Nat} {c : Char} (hc : c ∈ natToStr n) :
    ∃ d, d < 10 ∧ c = Char.ofNat (48 + d) :=
  natToStrAux_mem (Nat.lt_succ_self n) hc

theorem natToStrAux_ne_nil {fuel n : Nat} (h : n < fuel) : natToStrAux fuel n ≠ [] := by
  cases fuel with
  | zero => omega
  | succ fuel =>
    rw [natToStrAux]
    split
    · simp
    · simp

theorem natToStr_ne_nil (n : Nat) : natToStr n ≠ [] :=
  natToStrAux_ne_nil (Nat.lt_succ_self n)

theorem natToStr_isDigit {n : Nat} {c : Char} (hc : c ∈ natToStr n) : c.isDigit = true := by
  obtain ⟨d, hd, rfl⟩ := natToStr_mem hc
  exact (digitChar_facts d hd).1

theorem natToStr_not_ws {n : Nat} {c : Char} (hc : c ∈ natToStr n) :
    c.isWhitespace = false := by
  obtain ⟨d, hd, rfl⟩ := natToStr_mem hc
  exact (digitChar_facts d hd).2.2.1

theorem natToStr_ne_x {n : Nat} {c : Char} (hc : c ∈ natToStr n) : c ≠ 'x' := by
  obtain ⟨d, hd, rfl⟩ := natToStr_mem hc
  exact (digitChar_facts d hd).2.2.2.1

theorem natToStr_ne_nl {n : Nat} {c : Char} (hc : c ∈ natToStr n) : c ≠ '\n' := by
  obtain ⟨d, hd, rfl⟩ := natToStr_mem hc
  exact (digitChar_facts d hd).2.2.2.2.1

/-- `dropWhile` keeps a list whose characters all fail the predicate. -/
theorem dropWhile_eq_self_of {p : Char → Bool} {s : Str}
    (h : ∀ c ∈ s, p c = false) : s.dropWhile p = s := by
  cases s with
  | nil => rfl
  | cons a t => rw [List.dropWhile_cons, h a (by simp)]; simp

theorem pyLStrip_eq_self_of {s : Str} (h : ∀ c ∈ s, c.isWhitespace = false) :
    pyLStrip s = s := dropWhile_eq_self_of h

theorem pyRStrip_eq_self_of {s : Str} (h : ∀ c ∈ s, c.isWhitespace = false) :
    pyRStrip s = s := by
  unfold pyRStrip
  rw [dropWhile_eq_self_of (fun c hc => h c (List.mem_reverse.1 hc)), List.reverse_reverse]

theorem pyStrip_eq_self_of {s : Str} (h : ∀ c ∈ s, c.isWhitespace = false) :
    pyStrip s = s := by
  unfold pyStrip
  rw [pyLStrip_eq_self_of h, pyRStrip_eq_self_of h]

/-- A string equal to its own strip also equals its own one-sided strips. -/
theorem pyLStrip_of_pyStrip_eq {s : Str} (h : pyStrip s = s) : pyLStrip s = s := by
  have h₁ : (s.dropWhile Char.isWhitespace).length ≤ s.length :=
    (List.dropWhile_suffix _).length_le
  have h₂ : (pyStrip s).length ≤ (s.dropWhile Char.isWhitespace).length := by
    unfold pyStrip pyRStrip pyLStrip
    simpa using (List.dropWhile_suffix
      (l := (s.dropWhile Char.isWhitespace).reverse) Char.isWhitespace).length_le
  have h₃ : (pyStrip s).length = s.length := by rw [h]
  exact (List.dropWhile_suffix _).eq_of_length (by omega)

theorem pyRStrip_of_pyStrip_eq {s : Str} (h : pyStrip s = s) : pyRStrip s = s := by
  have h₁ := pyLStrip_of_pyStrip_eq h
  unfold pyStrip at h
  rw [h₁] at h
  exact h

theorem head_not_ws_of_pyLStrip {s : Str} {ch : Char} (heq : pyLStrip s = s)
    (hh : s.head? = some ch) : ch.isWhitespace = false := by
  cases s with
  | nil => simp at hh
  | cons a t =>
    obtain rfl : a = ch := by simpa using hh
    by_contra hw
    have hw' : a.isWhitespace = true := by
      cases hv : a.isWhitespace
      · exact absurd hv hw
      · rfl
    unfold pyLStrip at heq
    rw [List.dropWhile_cons, hw'] at heq
    have hlen := congrArg List.length heq
    have h₂ : (t.dropWhile Char.isWhitespace).length ≤ t.length :=
      (List.dropWhile_suffix _).length_le
    simp at hlen
    omega

theorem getLast_not_ws_of_pyRStrip {s : Str} {ch : Char} (heq : pyRStrip s = s)
    (hh : s.getLast? = some ch) : ch.isWhitespace = false := by
  have hrev : pyLStrip s.reverse = s.reverse := by
    have h₂ := congrArg List.reverse heq
    unfold pyRStrip at h₂
    rw [List.reverse_reverse] at h₂
    exact h₂
  exact head_not_ws_of_pyLStrip hrev (by rw [List.head?_reverse]; exact hh)

-- digits round-trip

theorem digitsVal_append_digit (a : Str) (c : Char) :
    digitsVal (a ++ [c]) = 10 * digitsVal a + (c.toNat - 48) := by
  unfold digitsVal
  rw [List.foldl_append]
  rfl

theorem digitsVal_natToStrAux : ∀ {fuel n : Nat}, n < fuel →
    digitsVal (natToStrAux fuel n) = n := by
  intro fuel
  induction fuel with
  | zero => intro n h; omega
  | succ fuel ih =>
    intro n hn
    rw [natToStrAux]
    split
    · next h =>
      show digitsVal [Char.ofNat (48 + n)] = n
      unfold digitsVal
      simp [(digitChar_facts n h).2.1]
    · next h =>
      rw [digitsVal_append_digit, ih (by
          have := Nat.div_lt_self (show 0 < n by omega) (show 1 < 10 by omega)
          omega),
        (digitChar_facts (n % 10) (Nat.mod_lt _ (by omega))).2.1]
      omega

theorem digitsVal_natToStr (n : Nat) : digitsVal (natToStr n) = n :=
  digitsVal_natToStrAux (Nat.lt_succ_self n)

theorem digitsOnly_natToStr (n : Nat) : digitsOnly (natToStr n) = some n := by
  unfold digitsOnly
  rw [if_pos]
  · rw [digitsVal_natToStr]
  · exact ⟨natToStr_ne_nil n, List.all_eq_true.2 fun c hc => natToStr_isDigit hc⟩

theorem pyStrip_natToStr (n : Nat) : pyStrip (natToStr n) = natToStr n :=
  pyStrip_eq_self_of fun _ hc => natToStr_not_ws hc

theorem natToStr_head_ne {n : Nat} {c : Char} (hc : (natToStr n).head? = some c) :
    c ≠ '-' ∧ c ≠ '+' := by
  have hmem : c ∈ natToStr n := by
    cases hs : natToStr n with
    | nil => rw [hs] at hc; simp at hc
    | cons a t => rw [hs] at hc; simp at hc; simp [hs, hc]
  obtain ⟨d, hd, rfl⟩ := natToStr_mem hmem
  exact ⟨(digitChar_facts d hd).2.2.2.2.2.1, (digitChar_facts d hd).2.2.2.2.2.2.1⟩

/-- `int(str(n)) == n` for every Python int `n`. -/
theorem pyInt_intToStr (n : Int) : pyInt (intToStr n) = some n := by
  unfold pyInt intToStr
  split
  · next hneg =>
    have hstrip : pyStrip ('-' :: natToStr n.natAbs) = '-' :: natToStr n.natAbs := by
      apply pyStrip_eq_self_of
      intro c hc
      rcases List.mem_cons.1 hc with rfl | hcm
      · decide
      · exact natToStr_not_ws hcm
    rw [hstrip]
    simp only [List.head?_cons, if_true]
    rw [show List.drop 1 ('-' :: natToStr n.natAbs) = natToStr n.natAbs from rfl]
    rw [digitsOnly_natToStr, Option.map_some']
    congr 1
    simp only [Int.ofNat_eq_natCast]
    omega
  · next hpos =>
    rw [pyStrip_natToStr]
    obtain ⟨c₀, hc₀⟩ : ∃ c, (natToStr n.toNat).head? = some c := by
      cases hs : natToStr n.toNat with
      | nil => exact absurd hs (natToStr_ne_nil _)
      | cons a t => exact ⟨a, by simp⟩
    have h₁ : ¬(natToStr n.toNat).head? = some '-' := by
      rw [hc₀]
      intro h
      exact (natToStr_head_ne hc₀).1 (Option.some.inj h)
    have h₂ : ¬(natToStr n.toNat).head? = some '+' := by
      rw [hc₀]
      intro h
      exact (natToStr_head_ne hc₀).2 (Option.some.inj h)
    rw [if_neg h₁, if_neg h₂, digitsOnly_natToStr, Option.map_some']
    congr 1
    simp only [Int.ofNat_eq_natCast]
    omega

-- intToStr character facts

theorem intToStr_mem {n : Int} {c : Char} (hc : c ∈ intToStr n) :
    c = '-' ∨ ∃ d, d < 10 ∧ c = Char.ofNat (48 + d) := by
  unfold intToStr at hc
  split at hc
  · rcases List.mem_cons.1 hc with rfl | hm
    · exact Or.inl rfl
    · exact Or.inr (natToStr_mem hm)
  · exact Or.inr (natToStr_mem hc)

theorem intToStr_ne_nil (n : Int) : intToStr n ≠ [] := by
  unfold intToStr
  split
  · simp
  · exact natToStr_ne_nil _

theorem intToStr_not_ws {n : Int} {c : Char} (hc : c ∈ intToStr n) :
    c.isWhitespace = false := by
  rcases intToStr_mem hc with rfl | ⟨d, hd, rfl⟩
  · decide
  · exact (digitChar_facts d hd).2.2.1

theorem intToStr_ne_x {n : Int} {c : Char} (hc : c ∈ intToStr n) : c ≠ 'x' := by
  rcases intToStr_mem hc with rfl | ⟨d, hd, rfl⟩
  · decide
  · exact (digitChar_facts d hd).2.2.2.1

theorem intToStr_ne_nl {n : Int} {c : Char} (hc : c ∈ intToStr n) : c ≠ '\n' := by
  rcases intToStr_mem hc with rfl | ⟨d, hd, rfl⟩
  · decide
  · exact (digitChar_facts d hd).2.2.2.2.1

theorem intToStr_head_ne_hash {n : Int} {c : Char}
    (hc : (intToStr n).head? = some c) : c ≠ '#' := by
  have hmem : c ∈ intToStr n := by
    cases hs : intToStr n with
    | nil => rw [hs] at hc; simp at hc
    | cons a t =>
      rw [hs] at hc
      simp at hc
      simp [hs, hc]
  rcases intToStr_mem hmem with rfl | ⟨d, hd, rfl⟩
  · decide
  · exact (digitChar_facts d hd).2.2.2.2.2.2.2

-- splitOnChar lemmas (inherited from `List.splitOn`)

theorem splitOnChar_not_mem {c : Char} {l : Str} (h : c ∉ l) :
    splitOnChar c l = [l] := by
  unfold splitOnChar List.splitOn
  apply List.splitOnP_eq_single
  intro x hx hbeq
  rw [eq_of_beq hbeq] at hx
  exact h hx

theorem splitOnChar_first {c : Char} {a s : Str} (h : c ∉ a) :
    splitOnChar c (a ++ c :: s) = a :: splitOnChar c s := by
  unfold splitOnChar List.splitOn
  apply List.splitOnP_first
  · intro x hx hbeq
    rw [eq_of_beq hbeq] at hx
    exact h hx
  · simp

theorem splitOnChar_two {c : Char} {a b : Str} (ha : c ∉ a) (hb : c ∉ b) :
    splitOnChar c (a ++ c :: b) = [a, b] := by
  rw [splitOnChar_first ha, splitOnChar_not_mem hb]

theorem splitOnChar_joinNL {ls : List Str} (hx : ∀ l ∈ ls, '\n' ∉ l)
    (hls : ls ≠ []) : splitOnChar '\n' (joinNL ls) = ls := by
  unfold splitOnChar joinNL List.splitOn
  exact List.splitOn_intercalate _ '\n' hx hls

-- pyStrip and pyLines of serialized text

/-- A string whose first and last characters are not whitespace equals its
own strip. -/
theorem pyStrip_eq_self_of_ends {s : Str}
    (hh : ∀ ch, s.head? = some ch → ch.isWhitespace = false)
    (hl : ∀ ch, s.getLast? = some ch → ch.isWhitespace = false) :
    pyStrip s = s := by
  have hld : pyLStrip s = s := by
    cases s with
    | nil => rfl
    | cons a t =>
      unfold pyLStrip
      rw [List.dropWhile_cons, hh a rfl]
      simp
  unfold pyStrip
  rw [hld]
  cases hrev : s.reverse with
  | nil =>
    have : s = [] := by simpa using congrArg List.reverse hrev
    simp [this, pyRStrip]
  | cons a t =>
    unfold pyRStrip
    rw [hrev, List.dropWhile_cons, hl a (by rw [← List.head?_reverse, hrev]; rfl)]
    simp [← hrev]

/-- A line of the serialized deck text: non-empty, strip-invariant, and
newline-free. -/
def goodLine (l : Str) : Prop := l ≠ [] ∧ pyStrip l = l ∧ '\n' ∉ l

theorem joinNL_singleton (l : Str) : joinNL [l] = l := by
  simp [joinNL, List.intercalate]

theorem joinNL_cons_cons (l l' : Str) (rest : List Str) :
    joinNL (l :: l' :: rest) = l ++ '\n' :: joinNL (l' :: rest) := by
  simp [joinNL, List.intercalate, List.intersperse_cons_cons]

theorem joinNL_head? {l : Str} (ls : List Str) (hne : l ≠ []) :
    (joinNL (l :: ls)).head? = l.head? := by
  cases ls with
  | nil => rw [joinNL_singleton]
  | cons l' rest =>
    rw [joinNL_cons_cons, List.head?_append]
    cases l with
    | nil => exact absurd rfl hne
    | cons a t => rfl

theorem joinNL_getLast? : ∀ {ls : List Str}, (∀ l ∈ ls, l ≠ []) → ∀ {last : Str},
    ls.getLast? = some last → (joinNL ls).getLast? = last.getLast? := by
  intro ls
  induction ls with
  | nil => intro _ last h; simp at h
  | cons l rest ih =>
    intro h last hl
    cases rest with
    | nil =>
      obtain rfl : l = last := by simpa using hl
      rw [joinNL_singleton]
    | cons l' rest' =>
      have hl' : (l' :: rest').getLast? = some last := by
        rw [← hl]
        exact (List.getLast?_cons_cons ..).symm
      rw [joinNL_cons_cons, List.getLast?_append]
      have hinner := ih (fun x hx => h x (List.mem_cons_of_mem _ hx)) hl'
      have hlastne : last ≠ [] := h last (List.mem_cons_of_mem _
        (List.mem_of_getLast?_eq_some hl'))
      obtain ⟨ch, hch⟩ : ∃ ch, last.getLast? = some ch := by
        cases hlast : last.getLast? with
        | none => exact absurd (List.getLast?_eq_none_iff.1 hlast) hlastne
        | some ch => exact ⟨ch, rfl⟩
      have h₂ : ('\n' :: joinNL (l' :: rest')).getLast? = some ch := by
        cases hj : joinNL (l' :: rest') with
        | nil =>
          rw [hj] at hinner
          rw [hch] at hinner
          simp at hinner
        | cons a t =>
          rw [List.getLast?_cons_cons, ← hj, hinner, hch]
      rw [h₂, hch]
      rfl

theorem head?_isSome_of_ne_nil {l : Str} (h : l ≠ []) : ∃ a, l.head? = some a := by
  cases l with
  | nil => exact absurd rfl h
  | cons a t => exact ⟨a, rfl⟩

theorem joinNL_ne_nil {ls : List Str} (h : ∀ l ∈ ls, l ≠ []) (hne : ls ≠ []) :
    joinNL ls ≠ [] := by
  cases ls with
  | nil => exact absurd rfl hne
  | cons l rest =>
    obtain ⟨a, ha⟩ := head?_isSome_of_ne_nil (h l (by simp))
    intro hj
    have := joinNL_head? rest (h l (by simp))
    rw [hj, ha] at this
    simp at this

/-- Splitting serialized text back into stripped non-empty lines recovers
exactly the serialized lines. -/
theorem pyLines_joinNL {ls : List Str} (h : ∀ l ∈ ls, goodLine l) (hne : ls ≠ []) :
    pyLines (joinNL ls) = ls := by
  cases ls with
  | nil => exact absurd rfl hne
  | cons l₀ rest =>
    have hstrip : pyStrip (joinNL (l₀ :: rest)) = joinNL (l₀ :: rest) := by
      apply pyStrip_eq_self_of_ends
      · intro ch hch
        rw [joinNL_head? rest (h l₀ (by simp)).1] at hch
        exact head_not_ws_of_pyLStrip (pyLStrip_of_pyStrip_eq (h l₀ (by simp)).2.1) hch
      · intro ch hch
        obtain ⟨last, hlast⟩ : ∃ last, (l₀ :: rest).getLast? = some last := by
          cases hl : (l₀ :: rest).getLast? with
          | none => exact absurd (List.getLast?_eq_none_iff.1 hl) (by simp)
          | some x => exact ⟨x, rfl⟩
        rw [joinNL_getLast? (fun l hl => (h l hl).1) hlast] at hch
        exact getLast_not_ws_of_pyRStrip
          (pyRStrip_of_pyStrip_eq
            (h last (List.mem_of_getLast?_eq_some hlast)).2.1) hch
    unfold pyLines
    rw [hstrip, splitOnChar_joinNL (fun l hl => (h l hl).2.2) (by simp)]
    rw [List.map_congr_left fun l hl => (h l hl).2.1]
    rw [show List.map (fun l => l) (l₀ :: rest) = l₀ :: rest from List.map_id _]
    rw [List.filter_eq_self.2 fun a ha => decide_eq_true (h a ha).1]

-- ===============================================================
-- Order-theoretic facts about the comparators
-- ===============================================================

theorem strLt_trans : ∀ {s t u : Str}, strLt s t = true → strLt t u = true →
    strLt s u = true := by
  intro s
  induction s with
  | nil =>
    intro t u h₁ h₂
    cases t with
    | nil => simp [strLt] at h₁
    | cons b bs =>
      cases u with
      | nil => simp [strLt] at h₂
      | cons c cs => simp [strLt]
  | cons a as ih =>
    intro t u h₁ h₂
    cases t with
    | nil => simp [strLt] at h₁
    | cons b bs =>
      cases u with
      | nil => simp [strLt] at h₂
      | cons c cs =>
        simp only [strLt] at h₁ h₂ ⊢
        by_cases hab : a = b
        · subst hab
          rw [if_pos rfl] at h₁
          by_cases hac : a = c
          · subst hac
            rw [if_pos rfl] at h₂ ⊢
            exact ih h₁ h₂
          · rw [if_neg hac] at h₂ ⊢
            exact h₂
        · rw [if_neg hab] at h₁
          by_cases hbc : b = c
          · subst hbc
            rw [if_neg hab]
            exact h₁
          · rw [if_neg hbc] at h₂
            have hlt : a < c := lt_trans (of_decide_eq_true h₁) (of_decide_eq_true h₂)
            rw [if_neg (ne_of_lt hlt)]
            exact decide_eq_true hlt

theorem strLt_asymm : ∀ {s t : Str}, strLt s t = true → strLt t s = true → False := by
  intro s
  induction s with
  | nil =>
    intro t h₁ h₂
    cases t with
    | nil => simp [strLt] at h₁
    | cons b bs => simp [strLt] at h₂
  | cons a as ih =>
    intro t h₁ h₂
    cases t with
    | nil => simp [strLt] at h₁
    | cons b bs =>
      simp only [strLt] at h₁ h₂
      by_cases hab : a = b
      · subst hab
        rw [if_pos rfl] at h₁ h₂
        exact ih h₁ h₂
      · rw [if_neg hab] at h₁
        rw [if_neg (Ne.symm hab)] at h₂
        exact lt_asymm (of_decide_eq_true h₁) (of_decide_eq_true h₂)

theorem strLt_trichotomy : ∀ (s t : Str), strLt s t = true ∨ s = t ∨ strLt t s = true := by
  intro s
  induction s with
  | nil =>
    intro t
    cases t with
    | nil => exact Or.inr (Or.inl rfl)
    | cons b bs => exact Or.inl (by simp [strLt])
  | cons a as ih =>
    intro t
    cases t with
    | nil => exact Or.inr (Or.inr (by simp [strLt]))
    | cons b bs =>
      by_cases hab : a = b
      · subst hab
        rcases ih bs with h | h | h
        · exact Or.inl (by simp only [strLt]; simpa using h)
        · exact Or.inr (Or.inl (by rw [h]))
        · exact Or.inr (Or.inr (by simp only [strLt]; simpa using h))
      · rcases lt_trichotomy a b with h | h | h
        · exact Or.inl (by simp only [strLt]; rw [if_neg hab]; exact decide_eq_true h)
        · exact absurd h hab
        · refine Or.inr (Or.inr ?_)
          simp only [strLt]
          rw [if_neg (Ne.symm hab)]
          exact decide_eq_true h

theorem strLe_trans {s t u : Str} (h₁ : strLe s t = true) (h₂ : strLe t u = true) :
    strLe s u = true := by
  unfold strLe at h₁ h₂ ⊢
  rcases Bool.or_eq_true_iff.1 h₁ with hlt₁ | heq₁
  · rcases Bool.or_eq_true_iff.1 h₂ with hlt₂ | heq₂
    · exact Bool.or_eq_true_iff.2 (Or.inl (strLt_trans hlt₁ hlt₂))
    · rw [← of_decide_eq_true heq₂]
      exact Bool.or_eq_true_iff.2 (Or.inl hlt₁)
  · rw [of_decide_eq_true heq₁]
    exact h₂

theorem strLe_total (s t : Str) : strLe s t = true ∨ strLe t s = true := by
  unfold strLe
  rcases strLt_trichotomy s t with h | h | h
  · exact Or.inl (Bool.or_eq_true_iff.2 (Or.inl h))
  · exact Or.inl (Bool.or_eq_true_iff.2 (Or.inr (decide_eq_true h)))
  · exact Or.inr (Bool.or_eq_true_iff.2 (Or.inl h))

theorem strLe_antisymm {s t : Str} (h₁ : strLe s t = true) (h₂ : strLe t s = true) :
    s = t := by
  unfold strLe at h₁ h₂
  rcases Bool.or_eq_true_iff.1 h₁ with hlt₁ | heq₁
  · rcases Bool.or_eq_true_iff.1 h₂ with hlt₂ | heq₂
    · exact (strLt_asymm hlt₁ hlt₂).elim
    · exact (of_decide_eq_true heq₂).symm
  · exact of_decide_eq_true heq₁

/-- One level of Python's lexicographic tuple comparison is transitive. -/
theorem ifne_le_trans {a₁ b₁ c₁ : Nat} {f g h : Bool}
    (hf : (if a₁ ≠ b₁ then decide (a₁ < b₁) else f) = true)
    (hg : (if b₁ ≠ c₁ then decide (b₁ < c₁) else g) = true)
    (htrans : f = true → g = true → h = true) :
    (if a₁ ≠ c₁ then decide (a₁ < c₁) else h) = true := by
  by_cases e₁ : a₁ = b₁ <;> by_cases e₂ : b₁ = c₁
  · subst e₁
    subst e₂
    rw [if_neg (fun hc => hc rfl)] at hf hg ⊢
    exact htrans hf hg
  · subst e₁
    rw [if_neg (fun hc => hc rfl)] at hf
    rw [if_pos e₂] at hg
    rw [if_pos e₂]
    exact hg
  · subst e₂
    rw [if_pos e₁] at hf
    rw [if_neg (fun hc => hc rfl)] at hg
    rw [if_pos e₁]
    exact hf
  · rw [if_pos e₁] at hf
    rw [if_pos e₂] at hg
    have hlt : a₁ < c₁ := Nat.lt_trans (of_decide_eq_true hf) (of_decide_eq_true hg)
    rw [if_pos (Nat.ne_of_lt hlt)]
    exact decide_eq_true hlt

/-- One level of Python's lexicographic tuple comparison is total. -/
theorem ifne_le_total {a₁ b₁ : Nat} {f g : Bool} (htot : f = true ∨ g = true) :
    (if a₁ ≠ b₁ then decide (a₁ < b₁) else f) = true ∨
    (if b₁ ≠ a₁ then decide (b₁ < a₁) else g) = true := by
  by_cases e : a₁ = b₁
  · subst e
    rw [if_neg (fun hc => hc rfl), if_neg (fun hc => hc rfl)]
    exact htot
  · rcases Nat.lt_or_ge a₁ b₁ with h | h
    · left
      rw [if_pos e]
      exact decide_eq_true h
    · right
      rw [if_pos (Ne.symm e)]
      exact decide_eq_true (Nat.lt_of_le_of_ne h fun hc => e hc.symm)

/-- One level of Python's lexicographic tuple comparison is antisymmetric. -/
theorem ifne_le_antisymm {a₁ b₁ : Nat} {f g : Bool}
    (h₁ : (if a₁ ≠ b₁ then decide (a₁ < b₁) else f) = true)
    (h₂ : (if b₁ ≠ a₁ then decide (b₁ < a₁) else g) = true) :
    a₁ = b₁ ∧ f = true ∧ g = true := by
  by_cases e : a₁ = b₁
  · subst e
    rw [if_neg (fun hc => hc rfl)] at h₁ h₂
    exact ⟨rfl, h₁, h₂⟩
  · rw [if_pos e] at h₁
    rw [if_pos (Ne.symm e)] at h₂
    have := of_decide_eq_true h₁
    have := of_decide_eq_true h₂
    omega

theorem dkeyLe_trans {a b c : Nat × Nat × Nat × Str} (h₁ : dkeyLe a b = true)
    (h₂ : dkeyLe b c = true) : dkeyLe a c = true := by
  unfold dkeyLe at h₁ h₂ ⊢
  refine ifne_le_trans h₁ h₂ fun h₁' h₂' => ?_
  refine ifne_le_trans h₁' h₂' fun h₁'' h₂'' => ?_
  exact ifne_le_trans h₁'' h₂'' fun hf hg => strLe_trans hf hg

theorem dkeyLe_total (a b : Nat × Nat × Nat × Str) :
    dkeyLe a b = true ∨ dkeyLe b a = true := by
  unfold dkeyLe
  exact ifne_le_total (ifne_le_total (ifne_le_total (strLe_total _ _)))

theorem dkeyLe_antisymm {a b : Nat × Nat × Nat × Str} (h₁ : dkeyLe a b = true)
    (h₂ : dkeyLe b a = true) : a = b := by
  obtain ⟨a₁, a₂, a₃, a₄⟩ := a
  obtain ⟨b₁, b₂, b₃, b₄⟩ := b
  unfold dkeyLe at h₁ h₂
  obtain ⟨e₁, h₁', h₂'⟩ := ifne_le_antisymm h₁ h₂
  obtain ⟨e₂, h₁'', h₂''⟩ := ifne_le_antisymm h₁' h₂'
  obtain ⟨e₃, hf, hg⟩ := ifne_le_antisymm h₁'' h₂''
  have e₄ := strLe_antisymm hf hg
  simp only at e₁ e₂ e₃ e₄
  rw [e₁, e₂, e₃, e₄]

-- ===============================================================
-- The deck-display sort: permutation, sortedness, determinism
-- ===============================================================

instance : IsTotal DeckRow fun r₁ r₂ => dkeyLe r₁.key r₂.key = true :=
  ⟨fun a b => dkeyLe_total a.key b.key⟩

instance : IsTrans DeckRow fun r₁ r₂ => dkeyLe r₁.key r₂.key = true :=
  ⟨fun _ _ _ hab hbc => dkeyLe_trans hab hbc⟩

theorem sortDeckRows_perm (rows : List DeckRow) : List.Perm (sortDeckRows rows) rows :=
  List.perm_insertionSort _ rows

theorem sortDeckRows_sorted (rows : List DeckRow) :
    (sortDeckRows rows).Pairwise fun r₁ r₂ => dkeyLe r₁.key r₂.key = true := by
  unfold sortDeckRows
  exact List.sorted_insertionSort _ rows

/-- With pairwise-distinct sort keys the deck-display sort is a function of
the multiset of rows: any two permuted row lists sort to the same list. -/
theorem sortDeckRows_eq_of_perm {rows₁ rows₂ : List DeckRow}
    (hp : List.Perm rows₁ rows₂) (hnd : (rows₁.map fun r => r.key).Nodup) :
    sortDeckRows rows₁ = sortDeckRows rows₂ := by
  have hperm : List.Perm (sortDeckRows rows₁) (sortDeckRows rows₂) :=
    ((sortDeckRows_perm rows₁).trans hp).trans (sortDeckRows_perm rows₂).symm
  have hnd₁ : ((sortDeckRows rows₁).map fun r => r.key).Nodup :=
    (((sortDeckRows_perm rows₁).map fun r => r.key).nodup_iff).2 hnd
  have hnd₂ : ((sortDeckRows rows₂).map fun r => r.key).Nodup :=
    ((hperm.map fun r => r.key).nodup_iff).1 hnd₁
  have hs₁ : (sortDeckRows rows₁).Pairwise
      fun x y => dkeyLe x.key y.key = true ∧ x.key ≠ y.key :=
    (sortDeckRows_sorted rows₁).and (List.pairwise_map.1 hnd₁)
  have hs₂ : (sortDeckRows rows₂).Pairwise
      fun x y => dkeyLe x.key y.key = true ∧ x.key ≠ y.key :=
    (sortDeckRows_sorted rows₂).and (List.pairwise_map.1 hnd₂)
  exact @List.eq_of_perm_of_sorted DeckRow
    (fun x y => dkeyLe x.key y.key = true ∧ x.key ≠ y.key)
    ⟨fun x y hxy hyx => absurd (dkeyLe_antisymm hxy.1 hyx.1) hxy.2⟩
    _ _ hperm hs₁ hs₂

-- ===============================================================
-- deckRowsOf: shape of the per-entry records
-- ===============================================================

theorem deckRowsOf_isSome {df : List Card} :
    ∀ {deck : List (Str × Int)}, (∀ p ∈ deck, (findCard df p.1).isSome = true) →
    ∃ rows, deckRowsOf df deck = some rows := by
  intro deck
  induction deck with
  | nil => exact fun _ => ⟨[], rfl⟩
  | cons p rest ih =>
    intro h
    obtain ⟨c, hc⟩ := Option.isSome_iff_exists.1 (h p (by simp))
    obtain ⟨rows, hrows⟩ := ih fun q hq => h q (List.mem_cons_of_mem _ hq)
    obtain ⟨cid, cnt⟩ := p
    exact ⟨deckRow c cid cnt :: rows, by unfold deckRowsOf; rw [hc, hrows]; rfl⟩

theorem deckRowsOf_spec {df : List Card} :
    ∀ {deck : List (Str × Int)} {rows : List DeckRow},
    deckRowsOf df deck = some rows →
    rows.map (fun r => (r.cardId, r.count)) = deck ∧
    ∀ r ∈ rows, ∃ c, findCard df r.cardId = some c ∧ r = deckRow c r.cardId r.count := by
  intro deck
  induction deck with
  | nil =>
    intro rows h
    obtain rfl : rows = [] := by
      unfold deckRowsOf at h
      exact (Option.some.inj h).symm
    exact ⟨rfl, by simp⟩
  | cons p rest ih =>
    intro rows h
    obtain ⟨cid, cnt⟩ := p
    unfold deckRowsOf at h
    cases hc : findCard df cid with
    | none => rw [hc] at h; simp at h
    | some c =>
      rw [hc] at h
      cases hrest : deckRowsOf df rest with
      | none => rw [hrest] at h; simp at h
      | some rs =>
        rw [hrest] at h
        obtain rfl : deckRow c cid cnt :: rs = rows := by
          simpa using h
        obtain ⟨hmap, hall⟩ := ih hrest
        refine ⟨by simp [deckRow, hmap], ?_⟩
        intro r hr
        rcases List.mem_cons.1 hr with rfl | hm
        · exact ⟨c, by simpa [deckRow] using hc, rfl⟩
        · exact hall r hm

-- ===============================================================
-- Python dict lemmas
-- ===============================================================

theorem dictSet_fresh {d : List (Str × Int)} {k : Str} {v : Int}
    (h : ∀ p ∈ d, p.1 ≠ k) : dictSet d k v = d ++ [(k, v)] := by
  have hany : (d.any fun p => decide (p.1 = k)) = false := by
    rw [List.any_eq_false]
    intro p hp
    simpa using h p hp
  unfold dictSet
  rw [hany]
  simp

theorem find?_map_update : ∀ (d : List (Str × Int)) (k : Str) (v : Int),
    (d.any fun p => decide (p.1 = k)) = true →
    ((d.map fun p => if p.1 = k then (k, v) else p).find?
      fun p => decide (p.1 = k)) = some (k, v) := by
  intro d k v hany
  induction d with
  | nil => simp at hany
  | cons p rest ih =>
    by_cases hp : p.1 = k
    · simp only [List.map_cons, if_pos hp]
      rw [List.find?_cons_of_pos _ (by simp)]
    · simp only [List.map_cons, if_neg hp]
      rw [List.find?_cons_of_neg _ (by simpa using hp)]
      apply ih
      rcases List.any_eq_true.1 hany with ⟨q, hq, hqk⟩
      rcases List.mem_cons.1 hq with rfl | hm
      · exact absurd (of_decide_eq_true hqk) hp
      · exact List.any_eq_true.2 ⟨q, hm, hqk⟩

theorem dictGet?_dictSet_self (d : List (Str × Int)) (k : Str) (v : Int) :
    dictGet? (dictSet d k v) k = some v := by
  unfold dictSet
  split
  · next hany =>
    unfold dictGet?
    rw [find?_map_update d k v hany]
    rfl
  · next hany =>
    unfold dictGet?
    rw [List.find?_append]
    have hnone : (d.find? fun p => decide (p.1 = k)) = none := by
      rw [List.find?_eq_none]
      intro p hp
      simp only [decide_eq_true_eq]
      intro hpk
      exact hany (List.any_eq_true.2 ⟨p, hp, decide_eq_true hpk⟩)
    rw [hnone]
    simp

theorem find?_map_update_ne {k' k : Str} (h : k' ≠ k) (v : Int) :
    ∀ d : List (Str × Int),
    ((d.map fun p => if p.1 = k then (k, v) else p).find? fun p => decide (p.1 = k'))
      = d.find? fun p => decide (p.1 = k') := by
  intro d
  induction d with
  | nil => rfl
  | cons p rest ih =>
    simp only [List.map_cons, List.find?_cons]
    by_cases hp : p.1 = k
    · rw [if_pos hp]
      have h₁ : (decide ((k, v).1 = k') : Bool) = false :=
        decide_eq_false fun hc => h (hc.symm)
      have h₂ : (decide (p.1 = k') : Bool) = false :=
        decide_eq_false fun hc => h ((hp ▸ hc).symm)
      rw [h₁, h₂]
      exact ih
    · rw [if_neg hp]
      cases hpk' : (decide (p.1 = k') : Bool) with
      | true => rfl
      | false => exact ih

theorem dictGet?_dictSet_ne {k' k : Str} (h : k' ≠ k) (d : List (Str × Int)) (v : Int) :
    dictGet? (dictSet d k v) k' = dictGet? d k' := by
  unfold dictSet
  split
  · unfold dictGet?
    rw [find?_map_update_ne h v d]
  · unfold dictGet?
    rw [List.find?_append]
    have hsingle : (([(k, v)] : List (Str × Int)).find? fun p => decide (p.1 = k')) = none := by
      simp [Ne.symm h]
    rw [hsingle]
    simp

-- ===============================================================
-- The entry-line loop on well-formed serialized lines
-- ===============================================================

theorem applyEntryLines_cons_good (df : List Card) (d : List (Str × Int))
    (rest : List Str) {cnt : Int} {cid : Str} (hcid : 'x' ∉ cid)
    (hfound : (findCard df cid).isSome = true) :
    applyEntryLines df d ((intToStr cnt ++ 'x' :: cid) :: rest) =
      applyEntryLines df (dictSet d cid cnt) rest := by
  have hmem : 'x' ∈ intToStr cnt ++ 'x' :: cid :=
    List.mem_append.2 (Or.inr (by simp))
  have hxint : 'x' ∉ intToStr cnt := fun hm => intToStr_ne_x hm rfl
  rw [applyEntryLines, if_pos hmem]
  simp only [splitOnChar_two hxint hcid, pyInt_intToStr, hfound, eq_self_iff_true,
    if_true]

theorem applyEntryLines_entryLines (df : List Card) :
    ∀ (rows : List DeckRow) (d : List (Str × Int)),
    (∀ r ∈ rows, (findCard df r.cardId).isSome = true ∧ 'x' ∉ r.cardId) →
    applyEntryLines df d (rows.map entryLine) =
      (rows.foldl (fun acc r => dictSet acc r.cardId r.count) d, true) := by
  intro rows
  induction rows with
  | nil => intro d _; rfl
  | cons r rest ih =>
    intro d h
    rw [List.map_cons]
    rw [show entryLine r = intToStr r.count ++ 'x' :: r.cardId from rfl]
    rw [applyEntryLines_cons_good df d _ (h r (by simp)).2 (h r (by simp)).1]
    rw [ih _ fun q hq => h q (List.mem_cons_of_mem _ hq)]
    rfl

/-- Folding dict assignments whose keys are fresh and pairwise distinct
just appends the pairs in order. -/
theorem foldl_dictSet_fresh :
    ∀ (rows : List DeckRow) (d : List (Str × Int)),
    (∀ r ∈ rows, ∀ p ∈ d, p.1 ≠ r.cardId) →
    ((rows.map fun r => r.cardId).Nodup) →
    rows.foldl (fun acc r => dictSet acc r.cardId r.count) d
      = d ++ rows.map fun r => (r.cardId, r.count) := by
  intro rows
  induction rows with
  | nil => intro d _ _; simp
  | cons r rest ih =>
    intro d hd hnd
    have hnd' : (∀ x ∈ rest, ¬x.cardId = r.cardId) ∧
        (rest.map fun r => r.cardId).Nodup := by simpa using hnd
    simp only [List.foldl_cons]
    rw [dictSet_fresh fun p hp => hd r (by simp) p hp]
    rw [ih (d ++ [(r.cardId, r.count)]) ?nextfresh hnd'.2]
    · simp
    case nextfresh =>
      intro q hq p hp
      rcases List.mem_append.1 hp with hp' | hp'
      · exact hd q (List.mem_cons_of_mem _ hq) p hp'
      · obtain rfl : p = (r.cardId, r.count) := by simpa using hp'
        intro he
        exact hnd'.1 q hq he.symm

/-- Looking a key up after the fold of dict assignments yields the count of
the last assignment with that key (or falls back to the initial dict). -/
theorem dictGet?_foldl :
    ∀ (rows : List DeckRow) (d : List (Str × Int)) (k : Str),
    dictGet? (rows.foldl (fun acc r => dictSet acc r.cardId r.count) d) k =
      (match (rows.filter fun r => decide (r.cardId = k)).getLast? with
       | some r => some r.count
       | none => dictGet? d k) := by
  intro rows
  induction rows with
  | nil => intro d k; rfl
  | cons r rest ih =>
    intro d k
    simp only [List.foldl_cons, List.filter_cons]
    by_cases hk : r.cardId = k
    · rw [if_pos (by simpa using hk)]
      rw [ih]
      cases hfl : rest.filter fun q => decide (q.cardId = k) with
      | nil =>
        subst hk
        simp only [List.getLast?_nil, List.getLast?_singleton]
        exact dictGet?_dictSet_self d r.cardId r.count
      | cons f fs =>
        rw [List.getLast?_cons_cons]
        obtain ⟨q, hq⟩ : ∃ q, (f :: fs).getLast? = some q := by
          cases hql : (f :: fs).getLast? with
          | none => exact absurd (List.getLast?_eq_none_iff.1 hql) (by simp)
          | some q => exact ⟨q, rfl⟩
        rw [hq]
    · rw [if_neg (by simpa using hk)]
      rw [ih]
      cases hfl : rest.filter fun q => decide (q.cardId = k) with
      | nil =>
        simp only [List.getLast?_nil]
        exact dictGet?_dictSet_ne (fun he => hk he.symm) d r.count
      | cons f fs =>
        obtain ⟨q, hq⟩ : ∃ q, (f :: fs).getLast? = some q := by
          cases hql : (f :: fs).getLast? with
          | none => exact absurd (List.getLast?_eq_none_iff.1 hql) (by simp)
          | some q => exact ⟨q, rfl⟩
        rw [hq]

-- ===============================================================
-- Shape of the serialized text
-- ===============================================================

/-- The lines of the serialized deck text. -/
def codecLines (leaderId : Str) (rows : List DeckRow) (deckName : Str) : List Str :=
  (if deckName ≠ [] then [nameLineOf deckName] else []) ++
    leaderLineOf leaderId :: rows.map entryLine

theorem serializeDeck_eq {df : List Card} {leader : Card} {deck : List (Str × Int)}
    {deckName : Str} {rows : List DeckRow} (h : deckRowsOf df deck = some rows) :
    serializeDeck df leader deck deckName =
      some (joinNL (codecLines leader.id (sortDeckRows rows) deckName)) := by
  unfold serializeDeck codecLines
  rw [h]
  rfl

/-- A card id the codec round-trips: no `x`, no newline, no trailing
whitespace. -/
def goodId (cid : Str) : Prop := 'x' ∉ cid ∧ '\n' ∉ cid ∧ pyRStrip cid = cid

instance (cid : Str) : Decidable (goodId cid) :=
  inferInstanceAs (Decidable (_ ∧ _ ∧ _))

theorem mem_of_head?_eq_some {l : Str} {a : Char} (h : l.head? = some a) : a ∈ l := by
  cases l with
  | nil => simp at h
  | cons b t =>
    obtain rfl : b = a := by simpa using h
    simp

theorem goodLine_nameLine {deckName : Str} (hne : deckName ≠ [])
    (hstrip : pyStrip deckName = deckName) (hnl : '\n' ∉ deckName) :
    goodLine (nameLineOf deckName) := by
  refine ⟨by simp [nameLineOf], ?_, ?_⟩
  · apply pyStrip_eq_self_of_ends
    · intro ch hch
      obtain rfl : '#' = ch := by simpa [nameLineOf] using hch
      decide
    · intro ch hch
      have hgl : (nameLineOf deckName).getLast? = deckName.getLast? := by
        show ('#' :: ' ' :: deckName).getLast? = deckName.getLast?
        rw [List.getLast?_cons_cons]
        cases deckName with
        | nil => exact absurd rfl hne
        | cons a t => rw [List.getLast?_cons_cons]
      rw [hgl] at hch
      exact getLast_not_ws_of_pyRStrip (pyRStrip_of_pyStrip_eq hstrip) hch
  · intro hm
    rcases List.mem_cons.1 hm with h₁ | hm'
    · exact absurd h₁ (by decide)
    rcases List.mem_cons.1 hm' with h₂ | hm''
    · exact absurd h₂ (by decide)
    · exact hnl hm''

theorem goodLine_leaderLine {lid : Str} (h : goodId lid) :
    goodLine (leaderLineOf lid) := by
  refine ⟨by simp [leaderLineOf], ?_, ?_⟩
  · apply pyStrip_eq_self_of_ends
    · intro ch hch
      obtain rfl : '1' = ch := by simpa [leaderLineOf] using hch
      decide
    · intro ch hch
      cases hd : lid with
      | nil =>
        rw [show leaderLineOf lid = ['1', 'x'] from by rw [leaderLineOf, hd]] at hch
        obtain rfl : 'x' = ch := by simpa using hch
        decide
      | cons a t =>
        have hgl : (leaderLineOf lid).getLast? = lid.getLast? := by
          show ('1' :: 'x' :: lid).getLast? = lid.getLast?
          rw [List.getLast?_cons_cons, hd, List.getLast?_cons_cons]
        rw [hgl] at hch
        exact getLast_not_ws_of_pyRStrip h.2.2 hch
  · intro hm
    rcases List.mem_cons.1 hm with h₁ | hm'
    · exact absurd h₁ (by decide)
    rcases List.mem_cons.1 hm' with h₂ | hm''
    · exact absurd h₂ (by decide)
    · exact h.2.1 hm''

theorem goodLine_entryLine {r : DeckRow} (h : goodId r.cardId) :
    goodLine (entryLine r) := by
  have hne : intToStr r.count ≠ [] := intToStr_ne_nil _
  refine ⟨?_, ?_, ?_⟩
  · unfold entryLine
    cases hs : intToStr r.count with
    | nil => exact absurd hs hne
    | cons a t => simp
  · apply pyStrip_eq_self_of_ends
    · intro ch hch
      unfold entryLine at hch
      rw [List.head?_append] at hch
      cases hs : (intToStr r.count).head? with
      | none => exact absurd (List.head?_eq_none_iff.1 hs) hne
      | some c₀ =>
        rw [hs] at hch
        obtain rfl : c₀ = ch := by simpa using hch
        exact intToStr_not_ws (mem_of_head?_eq_some hs)
    · intro ch hch
      unfold entryLine at hch
      rw [List.getLast?_append] at hch
      cases hd : r.cardId with
      | nil =>
        rw [hd] at hch
        obtain rfl : 'x' = ch := by simpa using hch
        decide
      | cons a t =>
        have hgl : ('x' :: r.cardId).getLast? = r.cardId.getLast? := by
          rw [hd, List.getLast?_cons_cons]
        rw [hgl] at hch
        obtain ⟨q, hq⟩ : ∃ q, r.cardId.getLast? = some q := by
          cases hql : r.cardId.getLast? with
          | none => exact absurd (List.getLast?_eq_none_iff.1 hql) (by rw [hd]; simp)
          | some q => exact ⟨q, rfl⟩
        rw [hq] at hch
        obtain rfl : q = ch := by simpa using hch
        exact getLast_not_ws_of_pyRStrip h.2.2 hq
  · intro hm
    unfold entryLine at hm
    rcases List.mem_append.1 hm with h₁ | hm'
    · exact intToStr_ne_nl h₁ rfl
    rcases List.mem_cons.1 hm' with h₂ | hm''
    · exact absurd h₂ (by decide)
    · exact h.2.1 hm''

theorem codecLines_good {leaderId : Str} {rows : List DeckRow} {deckName : Str}
    (hlid : goodId leaderId) (hids : ∀ r ∈ rows, goodId r.cardId)
    (hstrip : pyStrip deckName = deckName) (hnl : '\n' ∉ deckName) :
    ∀ l ∈ codecLines leaderId rows deckName, goodLine l := by
  intro l hl
  unfold codecLines at hl
  rcases List.mem_append.1 hl with hn | hm
  · by_cases hd : deckName = []
    · rw [if_neg (fun hc => hc hd)] at hn
      simp at hn
    · rw [if_pos hd] at hn
      obtain rfl : l = nameLineOf deckName := by simpa using hn
      exact goodLine_nameLine hd hstrip hnl
  · rcases List.mem_cons.1 hm with rfl | hm'
    · exact goodLine_leaderLine hlid
    · obtain ⟨r, hr, rfl⟩ := List.mem_map.1 hm'
      exact goodLine_entryLine (hids r hr)

theorem codecLines_ne_nil (leaderId : Str) (rows : List DeckRow) (deckName : Str) :
    codecLines leaderId rows deckName ≠ [] := by
  unfold codecLines
  intro h
  rcases List.append_eq_nil.1 h with ⟨_, h₂⟩
  simp at h₂

theorem pyStrip_ne_nil_of_pyLines_ne_nil {t : Str} (h : pyLines t ≠ []) :
    pyStrip t ≠ [] := by
  intro hs
  apply h
  unfold pyLines
  rw [hs]
  rfl

theorem pyStrip_space_cons {s : Str} (h : pyStrip s = s) : pyStrip (' ' :: s) = s := by
  have h₁ : pyLStrip (' ' :: s) = pyLStrip s := by
    unfold pyLStrip
    rw [List.dropWhile_cons, if_pos (by decide : (' '.isWhitespace = true))]
  unfold pyStrip
  rw [h₁, pyLStrip_of_pyStrip_eq h]
  exact pyRStrip_of_pyStrip_eq h

-- ===============================================================
-- Importing serialized text (the round-trip engine)
-- ===============================================================

theorem textImportBody_serialized {df : List Card} {st : SessionState}
    {importedName leaderId : Str} {rows : List DeckRow} {leaderCard : Card}
    (hlid : goodId leaderId)
    (hids : ∀ r ∈ rows, goodId r.cardId ∧ (findCard df r.cardId).isSome = true)
    (hfound : findCard df leaderId = some leaderCard) :
    textImportBody df st importedName (leaderLineOf leaderId :: rows.map entryLine) =
      ({ leader := some leaderCard,
         deck := rows.foldl (fun acc r => dictSet acc r.cardId r.count) [],
         deckName := importedName, deckView := previewView }, .success) := by
  have hmem : 'x' ∈ leaderLineOf leaderId := by simp [leaderLineOf]
  have hsplit : splitOnChar 'x' (leaderLineOf leaderId) = [['1'], leaderId] := by
    have := splitOnChar_two (c := 'x') (a := ['1']) (b := leaderId)
      (by decide) hlid.1
    simpa [leaderLineOf] using this
  rw [textImportBody, if_neg (fun hc => hc hmem)]
  simp only [hsplit, hfound,
    applyEntryLines_entryLines df rows [] fun r hr => ⟨(hids r hr).2, (hids r hr).1.1⟩]

/-- Importing the serialized text of a deck whose leader and entry card ids
are well-behaved replaces the session state with exactly the serialized
deck (entries as the fold of dict assignments over the sorted rows). -/
theorem textImport_serialized {df : List Card} {st : SessionState}
    {leaderId : Str} {rows : List DeckRow} {deckName : Str} {leaderCard : Card}
    (hlid : goodId leaderId)
    (hids : ∀ r ∈ rows, goodId r.cardId ∧ (findCard df r.cardId).isSome = true)
    (hstrip : pyStrip deckName = deckName) (hnl : '\n' ∉ deckName)
    (hfound : findCard df leaderId = some leaderCard) :
    textImport df st (joinNL (codecLines leaderId rows deckName)) =
      ({ leader := some leaderCard,
         deck := rows.foldl (fun acc r => dictSet acc r.cardId r.count) [],
         deckName := deckName, deckView := previewView }, .success) := by
  have hgood : ∀ l ∈ codecLines leaderId rows deckName, goodLine l :=
    codecLines_good hlid (fun r hr => (hids r hr).1) hstrip hnl
  have hlines : pyLines (joinNL (codecLines leaderId rows deckName))
      = codecLines leaderId rows deckName :=
    pyLines_joinNL hgood (codecLines_ne_nil _ _ _)
  have hpstrip : pyStrip (joinNL (codecLines leaderId rows deckName)) ≠ [] :=
    pyStrip_ne_nil_of_pyLines_ne_nil (by rw [hlines]; exact codecLines_ne_nil _ _ _)
  unfold textImport
  rw [if_neg hpstrip]
  by_cases hd : deckName = []
  · subst hd
    have hcl : codecLines leaderId rows [] = leaderLineOf leaderId :: rows.map entryLine := by
      unfold codecLines
      rw [if_neg (fun hc => hc rfl)]
      rfl
    rw [hlines, hcl]
    show (if (leaderLineOf leaderId).head? = some '#' then
        textImportBody df st (pyStrip ((leaderLineOf leaderId).drop 1)) (rows.map entryLine)
      else textImportBody df st [] (leaderLineOf leaderId :: rows.map entryLine)) =
      ({ leader := some leaderCard,
         deck := rows.foldl (fun acc r => dictSet acc r.cardId r.count) [],
         deckName := [], deckView := previewView }, .success)
    split
    · next hcond =>
      exfalso
      simp only [leaderLineOf, List.head?_cons, Option.some.injEq] at hcond
      exact absurd hcond (by decide)
    · exact textImportBody_serialized hlid hids hfound
  · have hcl : codecLines leaderId rows deckName =
        nameLineOf deckName :: leaderLineOf leaderId :: rows.map entryLine := by
      unfold codecLines
      rw [if_pos hd]
      rfl
    rw [hlines, hcl]
    show (if (nameLineOf deckName).head? = some '#' then
        textImportBody df st (pyStrip ((nameLineOf deckName).drop 1))
          (leaderLineOf leaderId :: rows.map entryLine)
      else textImportBody df st []
          (nameLineOf deckName :: leaderLineOf leaderId :: rows.map entryLine)) =
      ({ leader := some leaderCard,
         deck := rows.foldl (fun acc r => dictSet acc r.cardId r.count) [],
         deckName := deckName, deckView := previewView }, .success)
    split
    · have hdrop : (nameLineOf deckName).drop 1 = ' ' :: deckName := rfl
      rw [hdrop, pyStrip_space_cons hstrip]
      exact textImportBody_serialized hlid hids hfound
    · next hcond => exact absurd rfl hcond

-- ===============================================================
-- Remaining structural helpers
-- ===============================================================

/-- Placeholder row used only as the `getD` default below (never selected
when every lookup succeeds). -/
def defaultCard : Card :=
  { id := [], name := [], color := [], ctype := [], cost := 0, counter := [],
    attributeList := [], blockIcon := [], featuresRaw := [], featureList := [],
    seriesId := [], text := [], trigger := [] }

theorem deckRowsOf_eq_map {df : List Card} :
    ∀ {deck : List (Str × Int)} {rows : List DeckRow},
    deckRowsOf df deck = some rows →
    rows = deck.map fun p => deckRow ((findCard df p.1).getD defaultCard) p.1 p.2 := by
  intro deck
  induction deck with
  | nil =>
    intro rows h
    unfold deckRowsOf at h
    simpa using (Option.some.inj h).symm
  | cons p rest ih =>
    intro rows h
    obtain ⟨cid, cnt⟩ := p
    unfold deckRowsOf at h
    cases hc : findCard df cid with
    | none => rw [hc] at h; simp at h
    | some c =>
      rw [hc] at h
      cases hrest : deckRowsOf df rest with
      | none => rw [hrest] at h; simp at h
      | some rs =>
        rw [hrest] at h
        obtain rfl : deckRow c cid cnt :: rs = rows := by simpa using h
        rw [List.map_cons, ih hrest, hc]
        rfl

/-- Distinct card ids give distinct deck-display keys (the key ends in the
card id). -/
theorem rows_keys_nodup {rows : List DeckRow}
    (hid : (rows.map fun r => r.cardId).Nodup)
    (hkey : ∀ r ∈ rows, r.key.2.2.2 = r.cardId) :
    (rows.map fun r => r.key).Nodup := by
  have h₁ : rows.Pairwise fun a b => a.cardId ≠ b.cardId := List.pairwise_map.1 hid
  have h₂ : rows.Pairwise fun a b => a.key ≠ b.key := by
    refine List.Pairwise.imp_of_mem ?_ h₁
    intro a b ha hb hne hkeq
    apply hne
    rw [← hkey a ha, ← hkey b hb, hkeq]
  exact List.pairwise_map.2 h₂

-- ===============================================================
-- Concrete fixtures (the spec's §8.6 catalog and friends)
-- ===============================================================

/-- Catalog row builder for concrete test decks (text fields defaulted). -/
def mkTestCard (cid colr ctyp : String) (cost : Nat) : Card :=
  { id := toL cid, name := toL cid, color := toL colr, ctype := toL ctyp,
    cost := cost, counter := toL "-", attributeList := [], blockIcon := toL "-",
    featuresRaw := toL "-", featureList := [], seriesId := toL "-",
    text := toL "-", trigger := toL "-" }

def testLeader : Card := mkTestCard "LEAD-001" "赤" "LEADER" 0

def testChar1 : Card := mkTestCard "CARD-001" "赤" "CHARACTER" 3

def testChar2 : Card := mkTestCard "CARD-002" "緑" "CHARACTER" 2

def testCatalog : List Card := [testLeader, testChar1, testChar2]

/-- A prior session state with a leader-less deck in progress. -/
def testPrior : SessionState :=
  { leader := none, deck := [(toL "OLD", 2)], deckName := toL "Old",
    deckView := toL "preview" }

/-- A catalog whose (present!) leader card id contains the letter `x`. -/
def cexLeaderAxB : Card := mkTestCard "AxB" "赤" "LEADER" 0

def cexCatalog : List Card := [cexLeaderAxB]

-- ===============================================================
-- C1: codec round-trip
-- ===============================================================

/-- C1 (counterexample): the round-trip fails as universally stated.  The
catalog contains the leader card `AxB` (so every card id of the deck
`{leader AxB, no entries, no name}` is present), serialization produces
`1xAxB`, yet importing that text back is a structural failure — the line is
split on every `x` into three pieces — and the prior state survives
unchanged instead of the deck coming back. -/
theorem serialize_parse_roundtrip_cex :
    serializeDeck cexCatalog cexLeaderAxB [] [] = some (toL "1xAxB") ∧
    textImport cexCatalog testPrior (toL "1xAxB") =
      (testPrior, .failure .badLeaderLine) ∧
    testPrior.leader ≠ some cexLeaderAxB ∧ testPrior.deckName ≠ [] := by
  refine ⟨by decide, by decide, by decide, by decide⟩

/-- C1 (amended): parsing the serialized text of a deck yields back the same
leader row, the same name and the same multiset of `(card_id, count)`
entries, for any deck whose leader id and entry card ids are present in the
catalog — provided additionally that those ids contain no `x`, no newline
and no trailing whitespace, and that the deck name is strip-invariant and
newline-free. -/
theorem serialize_parse_roundtrip {df : List Card} {leader : Card}
    {entries : List (Str × Int)} {deckName : Str} {st : SessionState} {txt : Str}
    (hleader : findCard df leader.id = some leader)
    (hlid : goodId leader.id)
    (hids : ∀ p ∈ entries, goodId p.1 ∧ (findCard df p.1).isSome = true)
    (hnodup : (entries.map Prod.fst).Nodup)
    (hstrip : pyStrip deckName = deckName) (hnl : '\n' ∉ deckName)
    (hser : serializeDeck df leader entries deckName = some txt) :
    ∃ d, textImport df st txt =
        ({ leader := some leader, deck := d, deckName := deckName,
           deckView := previewView }, .success) ∧ List.Perm d entries := by
  obtain ⟨rows, hrows⟩ := deckRowsOf_isSome fun p hp => (hids p hp).2
  obtain ⟨hmap, _⟩ := deckRowsOf_spec hrows
  obtain rfl : txt = joinNL (codecLines leader.id (sortDeckRows rows) deckName) := by
    have := @serializeDeck_eq df leader entries deckName rows hrows
    rw [this] at hser
    exact (Option.some.inj hser).symm
  have hpair : ∀ r ∈ rows, (r.cardId, r.count) ∈ entries := by
    intro r hr
    rw [← hmap]
    exact List.mem_map_of_mem _ hr
  have hsorted_props : ∀ r ∈ sortDeckRows rows,
      goodId r.cardId ∧ (findCard df r.cardId).isSome = true := by
    intro r hr
    have hr' : r ∈ rows := (sortDeckRows_perm rows).mem_iff.1 hr
    exact hids _ (hpair r hr')
  have hids_rows : (rows.map fun r => r.cardId).Nodup := by
    have : (rows.map fun r => r.cardId) = entries.map Prod.fst := by
      rw [← hmap, List.map_map]
      rfl
    rw [this]
    exact hnodup
  have hids_sorted : ((sortDeckRows rows).map fun r => r.cardId).Nodup :=
    (((sortDeckRows_perm rows).map fun r => r.cardId).nodup_iff).2 hids_rows
  refine ⟨(sortDeckRows rows).map fun r => (r.cardId, r.count), ?_, ?_⟩
  · rw [textImport_serialized hlid hsorted_props hstrip hnl hleader]
    rw [foldl_dictSet_fresh (sortDeckRows rows) [] (by simp) hids_sorted]
    rfl
  · have h₁ : List.Perm ((sortDeckRows rows).map fun r => (r.cardId, r.count))
        (rows.map fun r => (r.cardId, r.count)) :=
      (sortDeckRows_perm rows).map fun r => (r.cardId, r.count)
    rw [hmap] at h₁
    exact h₁

/-- C1 (witness): the amended round-trip at the spec's concrete scenario:
deck `{leader LEAD-001, entries {CARD-001: 4}}` named `Test`. -/
theorem serialize_parse_roundtrip_witness :
    ∃ d, textImport testCatalog testPrior (toL "# Test\n1xLEAD-001\n4xCARD-001") =
        ({ leader := some testLeader, deck := d, deckName := toL "Test",
           deckView := previewView }, .success) ∧
      List.Perm d [(toL "CARD-001", (4 : Int))] :=
  serialize_parse_roundtrip (by decide) (by decide) (by decide) (by decide)
    (by decide) (by decide) (by decide)

-- ===============================================================
-- C3: which import failures leave the state unchanged
-- ===============================================================

theorem textImportBody_state {df : List Card} {st : SessionState}
    {importedName : Str} {rest : List Str} {e : ImportError}
    (h : (textImportBody df st importedName rest).2 = .failure e)
    (hne : e ≠ .badEntryLine) : (textImportBody df st importedName rest).1 = st := by
  cases rest with
  | nil => simp [textImportBody] at h
  | cons firstLine entryLines =>
    by_cases hx : 'x' ∉ firstLine
    · rw [textImportBody, if_pos hx]
    · cases hs : splitOnChar 'x' firstLine with
      | nil => rw [textImportBody, if_neg hx]; simp only [hs]
      | cons a as =>
        cases as with
        | nil => rw [textImportBody, if_neg hx]; simp only [hs]
        | cons b bs =>
          cases bs with
          | cons b' bs' => rw [textImportBody, if_neg hx]; simp only [hs]
          | nil =>
            rw [textImportBody, if_neg hx] at h ⊢
            simp only [hs] at h ⊢
            cases hf : findCard df b with
            | none => simp only [hf]
            | some c =>
              simp only [hf] at h ⊢
              cases hap : applyEntryLines df [] entryLines with
              | mk d ok =>
                simp only [hap] at h ⊢
                cases ok with
                | true => simp at h
                | false =>
                  exfalso
                  apply hne
                  have : ImportOutcome.failure ImportError.badEntryLine =
                      ImportOutcome.failure e := h
                  exact (ImportOutcome.failure.inj this).symm

/-- C3 (counterexample): a malformed count on an entry line (`axCARD-001`)
is reported as an import failure, but the prior deck state has already been
replaced — leader set, deck cleared, name cleared — so the claimed
"no partial import" fails for the malformed-count error. -/
theorem import_structural_error_cex :
    (textImport testCatalog testPrior (toL "1xLEAD-001\naxCARD-001")).2 =
      .failure .badEntryLine ∧
    (textImport testCatalog testPrior (toL "1xLEAD-001\naxCARD-001")).1 ≠ testPrior ∧
    (textImport testCatalog testPrior (toL "1xLEAD-001\naxCARD-001")).1.leader =
      some testLeader := by
  refine ⟨by decide, by decide, by decide⟩

/-- C3 (amended): every import failure other than an entry-line
`ValueError` — that is, the structural leader errors: empty line list,
leader line that does not split on `x` into exactly two pieces, unknown
leader card id — is reported with the prior session state left completely
unchanged.  (A malformed count or a multi-`x` entry line also reports a
failure, but only after the state was replaced by the partial import.) -/
theorem import_structural_error_preserves_state (df : List Card)
    (st : SessionState) (text : Str) (e : ImportError)
    (h : (textImport df st text).2 = .failure e) (hne : e ≠ .badEntryLine) :
    (textImport df st text).1 = st := by
  unfold textImport at h ⊢
  by_cases hs : pyStrip text = []
  · rw [if_pos hs]
  · rw [if_neg hs] at h ⊢
    cases hpl : pyLines text with
    | nil => simp only [hpl]
    | cons l₀ ls =>
      simp only [hpl] at h ⊢
      by_cases hh : l₀.head? = some '#'
      · rw [if_pos hh] at h ⊢
        exact textImportBody_state h hne
      · rw [if_neg hh] at h ⊢
        exact textImportBody_state h hne

/-- C3 (witness): an unknown leader id fails and preserves the state. -/
theorem import_structural_error_preserves_state_witness :
    (textImport testCatalog testPrior (toL "1xZZZ-999")).2 =
      .failure .leaderNotFound ∧
    (textImport testCatalog testPrior (toL "1xZZZ-999")).1 = testPrior :=
  ⟨by decide, import_structural_error_preserves_state testCatalog testPrior
    (toL "1xZZZ-999") .leaderNotFound (by decide) (by decide)⟩

-- ===============================================================
-- C4: how lines containing `x` are split
-- ===============================================================

/-- Modelled from the spec's words (§4.4): split a line on the FIRST
occurrence of `x` into `(count, card_id)`.  This is the behaviour the claim
asserts; the code's `split("x")` with two-variable unpacking differs. -/
def splitFirstX (l : Str) : Str × Str :=
  (l.takeWhile fun c => decide (c ≠ 'x'), ((l.dropWhile fun c => decide (c ≠ 'x')).drop 1))

/-- C4 (counterexample): the leader line `1xAxB` contains `x`; splitting on
the first occurrence would give `("1", "AxB")` with `AxB` a catalog card,
so under the claim the import would load that leader.  The code instead
splits on every `x` (unpacking then raises) and rejects the import,
leaving the state unchanged. -/
theorem split_on_first_x_cex :
    'x' ∈ toL "1xAxB" ∧
    splitFirstX (toL "1xAxB") = (toL "1", toL "AxB") ∧
    findCard cexCatalog (toL "AxB") = some cexLeaderAxB ∧
    textImport cexCatalog testPrior (toL "1xAxB") =
      (testPrior, .failure .badLeaderLine) := by
  refine ⟨by decide, by decide, by decide, by decide⟩

theorem takeWhile_until_x {a b : Str} (hxa : 'x' ∉ a) :
    (a ++ 'x' :: b).takeWhile (fun c => decide (c ≠ 'x')) = a := by
  induction a with
  | nil => simp
  | cons a₀ arest ih =>
    have hne : a₀ ≠ 'x' := fun hc => hxa (hc ▸ List.mem_cons_self a₀ arest)
    simp only [List.cons_append, List.takeWhile_cons, decide_eq_true hne]
    simp only [if_true]
    rw [ih fun hm => hxa (List.mem_cons_of_mem _ hm)]

theorem dropWhile_until_x {a b : Str} (hxa : 'x' ∉ a) :
    (a ++ 'x' :: b).dropWhile (fun c => decide (c ≠ 'x')) = 'x' :: b := by
  induction a with
  | nil => simp
  | cons a₀ arest ih =>
    have hne : a₀ ≠ 'x' := fun hc => hxa (hc ▸ List.mem_cons_self a₀ arest)
    simp only [List.cons_append, List.dropWhile_cons, decide_eq_true hne]
    simp only [if_true]
    exact ih fun hm => hxa (List.mem_cons_of_mem _ hm)

/-- C4 (amended): the parser accepts a line containing exactly one `x`,
splitting there into `(count, card_id)` — which coincides with splitting on
the first occurrence — and the mandatory leader line is interpreted as the
leader regardless of its count piece: for any count text `a` (it is never
parsed), a leader line `a ++ "x" ++ b` with `b` a known card id sets that
card as the leader.  Lines with two or more `x` are instead rejected. -/
theorem leader_line_split_one_x {df : List Card} {st : SessionState}
    {text a b : Str} {rest : List Str} {c : Card}
    (hstrip : pyStrip text ≠ [])
    (hlines : pyLines text = (a ++ 'x' :: b) :: rest)
    (hhash : ¬(a ++ 'x' :: b).head? = some '#')
    (hxa : 'x' ∉ a) (hxb : 'x' ∉ b)
    (hfind : findCard df b = some c) :
    ((textImport df st text).1).leader = some c ∧
    splitFirstX (a ++ 'x' :: b) = (a, b) := by
  constructor
  · unfold textImport
    rw [if_neg hstrip]
    simp only [hlines]
    rw [if_neg hhash, textImportBody]
    have hmem : 'x' ∈ a ++ 'x' :: b := List.mem_append.2 (Or.inr (by simp))
    rw [if_neg fun hc => hc hmem]
    simp only [splitOnChar_two hxa hxb, hfind]
    cases hap : applyEntryLines df [] rest with
    | mk d ok =>
      cases ok with
      | true => rfl
      | false => rfl
  · unfold splitFirstX
    rw [takeWhile_until_x hxa, dropWhile_until_x hxa]
    rfl

/-- C4 (witness): the leader line `007xLEAD-001` — count text `007`, never
inspected — loads `LEAD-001` as the leader. -/
theorem leader_line_split_one_x_witness :
    ((textImport testCatalog testPrior (toL "007xLEAD-001")).1).leader =
      some testLeader ∧
    splitFirstX (toL "007xLEAD-001") = (toL "007", toL "LEAD-001") :=
  @leader_line_split_one_x testCatalog testPrior (toL "007xLEAD-001")
    (toL "007") (toL "LEAD-001") [] testLeader (by decide) (by decide)
    (by decide) (by decide) (by decide) (by decide)

-- ===============================================================
-- C5: tolerated entry-line errors
-- ===============================================================

theorem dictSet_self_mem (d : List (Str × Int)) (k : Str) (v : Int) :
    ∃ v₁, (k, v₁) ∈ dictSet d k v := by
  unfold dictSet
  split
  · next hany =>
    rcases List.any_eq_true.1 hany with ⟨p, hp, hpk⟩
    exact ⟨v, List.mem_map.2 ⟨p, hp, by simp [of_decide_eq_true hpk]⟩⟩
  · exact ⟨v, List.mem_append.2 (Or.inr (by simp))⟩

theorem dictSet_mem_keys {d : List (Str × Int)} {k₀ : Str} (k : Str) (v : Int)
    (h : ∃ v₀, (k₀, v₀) ∈ d) : ∃ v₁, (k₀, v₁) ∈ dictSet d k v := by
  obtain ⟨v₀, hv₀⟩ := h
  unfold dictSet
  split
  · by_cases hk : k₀ = k
    · subst hk
      exact ⟨v, List.mem_map.2 ⟨(k₀, v₀), hv₀, by simp⟩⟩
    · exact ⟨v₀, List.mem_map.2 ⟨(k₀, v₀), hv₀, by simp [hk]⟩⟩
  · exact ⟨v₀, List.mem_append.2 (Or.inl hv₀)⟩

/-- A well-formed-or-skippable line list never aborts the entry loop, keys
already in the dict survive, and every well-formed line with a known card
id lands in the dict. -/
theorem applyEntryLines_tolerant (df : List Card) :
    ∀ (ls : List Str) (d : List (Str × Int)),
    (∀ l ∈ ls, 'x' ∉ l ∨ ∃ a b, l = a ++ 'x' :: b ∧ 'x' ∉ a ∧ 'x' ∉ b ∧
      (pyInt a).isSome = true) →
    (applyEntryLines df d ls).2 = true ∧
    (∀ k, (∃ v, (k, v) ∈ d) → ∃ v, (k, v) ∈ (applyEntryLines df d ls).1) ∧
    (∀ l ∈ ls, ∀ a b, l = a ++ 'x' :: b → 'x' ∉ a → 'x' ∉ b →
      (findCard df b).isSome = true →
      ∃ v, (b, v) ∈ (applyEntryLines df d ls).1) := by
  intro ls
  induction ls with
  | nil =>
    intro d _
    exact ⟨rfl, fun k h => h, by simp⟩
  | cons l rest ih =>
    intro d h
    rcases h l (by simp) with hnox | ⟨a, b, rfl, hxa, hxb, hint⟩
    · have hstep : applyEntryLines df d (l :: rest) = applyEntryLines df d rest := by
        rw [applyEntryLines, if_neg hnox]
      obtain ⟨h₁, h₂, h₃⟩ := ih d fun l' hl' => h l' (List.mem_cons_of_mem _ hl')
      rw [hstep]
      refine ⟨h₁, h₂, ?_⟩
      intro l' hl' a b hab hxa hxb hfound
      rcases List.mem_cons.1 hl' with rfl | hm
      · exact absurd (hab ▸ List.mem_append.2 (Or.inr (by simp))) hnox
      · exact h₃ l' hm a b hab hxa hxb hfound
    · obtain ⟨n, hn⟩ := Option.isSome_iff_exists.1 hint
      have hmem : 'x' ∈ a ++ 'x' :: b := List.mem_append.2 (Or.inr (by simp))
      have hstep : applyEntryLines df d ((a ++ 'x' :: b) :: rest) =
          applyEntryLines df
            (if (findCard df b).isSome = true then dictSet d b n else d) rest := by
        rw [applyEntryLines, if_pos hmem]
        simp only [splitOnChar_two hxa hxb, hn]
      set d' := if (findCard df b).isSome = true then dictSet d b n else d with hd'
      obtain ⟨h₁, h₂, h₃⟩ := ih d' fun l' hl' => h l' (List.mem_cons_of_mem _ hl')
      rw [hstep]
      refine ⟨h₁, ?_, ?_⟩
      · intro k hk
        apply h₂
        rw [hd']
        split
        · exact dictSet_mem_keys b n hk
        · exact hk
      · intro l' hl' a' b' hab hxa' hxb' hfound
        rcases List.mem_cons.1 hl' with heq | hm
        · have hb : b' = b ∧ a' = a := by
            have h₂x : a' ++ 'x' :: b' = a ++ 'x' :: b := hab ▸ heq
            have htake := takeWhile_until_x (b := b') hxa'
            rw [h₂x, takeWhile_until_x hxa] at htake
            have hdrop := dropWhile_until_x (b := b') hxa'
            rw [h₂x, dropWhile_until_x hxa] at hdrop
            exact ⟨by simpa using hdrop.symm, htake.symm⟩
          obtain ⟨rfl, rfl⟩ := hb
          apply h₂
          rw [hd']
          rw [if_pos hfound]
          exact dictSet_self_mem d _ n
        · exact h₃ l' hm a' b' hab hxa' hxb' hfound

/-- C5 (counterexample): with a valid leader line, the malformed entry line
`axCARD-001` is not silently skipped: the import aborts with a failure and
the valid later line `1xCARD-002` never reaches the deck — the claim's
"the rest of the import proceeds" fails for a malformed line that does
contain `x`. -/
theorem tolerant_entry_error_cex :
    (textImport testCatalog testPrior
        (toL "1xLEAD-001\naxCARD-001\n1xCARD-002")).2 = .failure .badEntryLine ∧
    (textImport testCatalog testPrior
        (toL "1xLEAD-001\naxCARD-001\n1xCARD-002")).1.deck = [] ∧
    findCard testCatalog (toL "CARD-002") = some testChar2 := by
  refine ⟨by decide, by decide, by decide⟩

/-- C5 (amended): with a valid leader line, entry lines lacking the `x`
separator and entry lines with unknown card ids are tolerated — skipped or
dropped — and the import succeeds, with every entry line that has exactly
one `x`, an integer count and a known card id contributing its card to the
imported deck.  (An entry line containing `x` with a non-integer count, or
more than one `x`, instead aborts the import.) -/
theorem tolerant_entry_lines {df : List Card} {st : SessionState}
    {text leaderLine : Str} {entryLines : List Str}
    (hstrip : pyStrip text ≠ [])
    (hlines : pyLines text = leaderLine :: entryLines)
    (hhash : ¬leaderLine.head? = some '#')
    (hleader : ∃ a b, leaderLine = a ++ 'x' :: b ∧ 'x' ∉ a ∧ 'x' ∉ b ∧
      (findCard df b).isSome = true)
    (hwf : ∀ l ∈ entryLines, 'x' ∉ l ∨ ∃ a b, l = a ++ 'x' :: b ∧ 'x' ∉ a ∧
      'x' ∉ b ∧ (pyInt a).isSome = true) :
    (textImport df st text).2 = .success ∧
    ∀ l ∈ entryLines, ∀ a b, l = a ++ 'x' :: b → 'x' ∉ a → 'x' ∉ b →
      (findCard df b).isSome = true →
      ∃ v, (b, v) ∈ (textImport df st text).1.deck := by
  obtain ⟨a, b, rfl, hxa, hxb, hfoundb⟩ := hleader
  obtain ⟨cb, hcb⟩ := Option.isSome_iff_exists.1 hfoundb
  have hred : textImport df st text =
      textImportBody df st [] ((a ++ 'x' :: b) :: entryLines) := by
    unfold textImport
    rw [if_neg hstrip]
    simp only [hlines]
    rw [if_neg hhash]
  have hmem : 'x' ∈ a ++ 'x' :: b := List.mem_append.2 (Or.inr (by simp))
  obtain ⟨h₁, _, h₃⟩ := applyEntryLines_tolerant df entryLines [] hwf
  have hbody : textImportBody df st [] ((a ++ 'x' :: b) :: entryLines) =
      ({ leader := some cb, deck := (applyEntryLines df [] entryLines).1,
         deckName := [], deckView := previewView }, .success) := by
    rw [textImportBody, if_neg fun hc => hc hmem]
    simp only [splitOnChar_two hxa hxb, hcb]
    cases hap : applyEntryLines df [] entryLines with
    | mk d ok =>
      cases ok with
      | true => rfl
      | false =>
        rw [hap] at h₁
        simp at h₁
  rw [hred, hbody]
  refine ⟨rfl, ?_⟩
  intro l hl a' b' hab hxa' hxb' hfound'
  exact h₃ l hl a' b' hab hxa' hxb' hfound'

/-- C5 (witness): `2xNOPE` (unknown id) and `zz` (no separator) are
tolerated; `3xCARD-002` lands in the deck and the import succeeds. -/
theorem tolerant_entry_lines_witness :
    (textImport testCatalog testPrior (toL "1xLEAD-001\n2xNOPE\nzz\n3xCARD-002")).2 =
      .success ∧
    ∃ v, (toL "CARD-002", v) ∈
      (textImport testCatalog testPrior
        (toL "1xLEAD-001\n2xNOPE\nzz\n3xCARD-002")).1.deck := by
  have h := @tolerant_entry_lines testCatalog testPrior
    (toL "1xLEAD-001\n2xNOPE\nzz\n3xCARD-002") (toL "1xLEAD-001")
    [toL "2xNOPE", toL "zz", toL "3xCARD-002"]
    (by decide) (by decide) (by decide)
    ⟨toL "1", toL "LEAD-001", by decide, by decide, by decide, by decide⟩
    (by
      intro l hl
      fin_cases hl
      · exact Or.inr ⟨toL "2", toL "NOPE", by decide, by decide, by decide, by decide⟩
      · exact Or.inl (by decide)
      · exact Or.inr ⟨toL "3", toL "CARD-002", by decide, by decide, by decide,
          by decide⟩)
  exact ⟨h.1, h.2 (toL "3xCARD-002") (by decide) (toL "3") (toL "CARD-002")
    (by decide) (by decide) (by decide) (by decide)⟩

-- ===============================================================
-- C10: duplicate entry lines overwrite
-- ===============================================================

/-- C10: for an import text consisting of a known leader line and entry
lines `{count}x{card_id}` (ids with no `x`, newline or trailing
whitespace, all known), the imported deck maps each card id to the count of
the LAST entry line bearing that id — duplicate entry lines overwrite, they
do not accumulate — and ids with no entry line are absent. -/
theorem duplicate_entry_lines_overwrite {df : List Card} {st : SessionState}
    {leader : Card} {rows : List DeckRow} (cid : Str)
    (hfound : findCard df leader.id = some leader) (hlid : goodId leader.id)
    (hids : ∀ r ∈ rows, goodId r.cardId ∧ (findCard df r.cardId).isSome = true) :
    dictGet? ((textImport df st (joinNL (codecLines leader.id rows []))).1.deck) cid =
      ((rows.filter fun r => decide (r.cardId = cid)).getLast?).map
        fun r => r.count := by
  rw [textImport_serialized hlid hids rfl (by simp) hfound]
  show dictGet? (rows.foldl (fun acc r => dictSet acc r.cardId r.count) []) cid = _
  rw [dictGet?_foldl rows [] cid]
  cases h : (rows.filter fun r => decide (r.cardId = cid)).getLast? with
  | none => rfl
  | some r => rfl

/-- A deck text with two entry lines for `CARD-001`: counts 2 then 3. -/
def duplicateRows : List DeckRow :=
  [{ cardId := toL "CARD-001", count := 2, key := (0, 0, 0, []) },
   { cardId := toL "CARD-001", count := 3, key := (0, 0, 0, []) }]

/-- C10 (witness): importing `1xLEAD-001`, `2xCARD-001`, `3xCARD-001`
leaves `CARD-001` at count 3 (the last line wins). -/
theorem duplicate_entry_lines_overwrite_witness :
    dictGet? ((textImport testCatalog testPrior
        (joinNL (codecLines testLeader.id duplicateRows []))).1.deck)
      (toL "CARD-001") = some 3 :=
  (duplicate_entry_lines_overwrite (toL "CARD-001") (by decide) (by decide)
    (by decide)).trans (by decide)

-- ===============================================================
-- C2: shape of the serialization
-- ===============================================================

/-- C2: serialization produces exactly an optional `"# " ++ name` first
line (present iff the name is non-empty), then the line `"1x" ++ leader_id`,
then one `"{count}x{card_id}"` line per entry, the entries sorted ascending
by the deck-display key `(type_rank, cost, base_color_rank, card_id)` taken
from each entry's catalog row, joined by single newlines — and the output is
independent of the insertion order of the entries mapping. -/
theorem serialize_format {df : List Card} {leader : Card}
    {entries entries' : List (Str × Int)} {deckName : Str}
    (hfound : ∀ p ∈ entries, (findCard df p.1).isSome = true)
    (hnodup : (entries.map Prod.fst).Nodup)
    (hperm : List.Perm entries' entries) :
    ∃ sortedRows : List DeckRow,
      List.Perm (sortedRows.map fun r => (r.cardId, r.count)) entries ∧
      sortedRows.Pairwise (fun r₁ r₂ => dkeyLe r₁.key r₂.key = true) ∧
      (∀ r ∈ sortedRows, ∃ c, findCard df r.cardId = some c ∧
        r.key = (c.sortKey.2.1, c.cost, c.sortKey.1, r.cardId)) ∧
      serializeDeck df leader entries deckName =
        some (joinNL ((if deckName ≠ [] then [nameLineOf deckName] else []) ++
          leaderLineOf leader.id :: sortedRows.map entryLine)) ∧
      serializeDeck df leader entries' deckName =
        serializeDeck df leader entries deckName := by
  obtain ⟨rows, hrows⟩ := deckRowsOf_isSome hfound
  obtain ⟨hmap, hspec⟩ := deckRowsOf_spec hrows
  obtain ⟨rows', hrows'⟩ := deckRowsOf_isSome fun p hp =>
    hfound p (hperm.mem_iff.1 hp)
  have hids_rows : (rows.map fun r => r.cardId).Nodup := by
    have : (rows.map fun r => r.cardId) = entries.map Prod.fst := by
      rw [← hmap, List.map_map]
      rfl
    rw [this]
    exact hnodup
  refine ⟨sortDeckRows rows, ?_, sortDeckRows_sorted rows, ?_, ?_, ?_⟩
  · have h₁ : List.Perm ((sortDeckRows rows).map fun r => (r.cardId, r.count))
        (rows.map fun r => (r.cardId, r.count)) :=
      (sortDeckRows_perm rows).map fun r => (r.cardId, r.count)
    rw [hmap] at h₁
    exact h₁
  · intro r hr
    obtain ⟨c, hc, hr_eq⟩ := hspec r ((sortDeckRows_perm rows).mem_iff.1 hr)
    exact ⟨c, hc, by rw [hr_eq]; rfl⟩
  · have := @serializeDeck_eq df leader entries deckName rows hrows
    rw [this]
    rfl
  · rw [@serializeDeck_eq df leader entries deckName rows hrows,
      @serializeDeck_eq df leader entries' deckName rows' hrows']
    have hperm_rows : List.Perm rows' rows := by
      rw [deckRowsOf_eq_map hrows, deckRowsOf_eq_map hrows']
      exact hperm.map _
    have hkeys : (rows'.map fun r => r.key).Nodup := by
      apply rows_keys_nodup
      · have : (rows'.map fun r => r.cardId) = entries'.map Prod.fst := by
          rw [deckRowsOf_eq_map hrows', List.map_map]
          rfl
        rw [this]
        exact (hperm.map Prod.fst).nodup_iff.2 hnodup
      · intro r hr
        obtain ⟨c, _, hr_eq⟩ := (deckRowsOf_spec hrows').2 r hr
        rw [hr_eq]
        rfl
    rw [sortDeckRows_eq_of_perm hperm_rows hkeys]

/-- C2 (witness): the spec's §8.6 deck plus `CARD-002`, serialized from two
different insertion orders, yields the same canonical text with
`2xCARD-002` (cost 2) before `4xCARD-001` (cost 3). -/
theorem serialize_format_witness :
    serializeDeck testCatalog testLeader
        [(toL "CARD-002", 2), (toL "CARD-001", 4)] (toL "Test") =
      serializeDeck testCatalog testLeader
        [(toL "CARD-001", 4), (toL "CARD-002", 2)] (toL "Test") ∧
    serializeDeck testCatalog testLeader
        [(toL "CARD-001", 4), (toL "CARD-002", 2)] (toL "Test") =
      some (toL "# Test\n1xLEAD-001\n2xCARD-002\n4xCARD-001") := by
  obtain ⟨sr, hA, hB, hC, hD, hE⟩ := @serialize_format testCatalog testLeader
    [(toL "CARD-001", 4), (toL "CARD-002", 2)]
    [(toL "CARD-002", 2), (toL "CARD-001", 4)] (toL "Test")
    (by decide) (by decide) (by decide)
  exact ⟨hE, by decide⟩

-- ===============================================================
-- C6: the sort-key function against its specification
-- ===============================================================

/-- Modelled from the spec's words (§4.2), for comparison with the source
function: empty/placeholder/no-known-color specs are maximal; otherwise the
base rank is the canonical index of the earliest known color found as a
substring, multicolor is detected by either slash variant, the sub rank is
the first other known color's canonical index + 1 (0 if multicolor with no
second recognizable color; the spec leaves the monocolor sub rank
implicit, and the code uses 0), and the type rank comes from the fixed
type priorities. -/
def colorSortKeySpec (text t : Str) : Nat × Nat × Nat × Nat :=
  if pyStrip text = toL "-" ∨ pyStrip text = [] then (999, 999, 999, 999)
  else
    match colorOrder.find? fun c => pyIn c text with
    | none => (999, 999, 999, 999)
    | some firstColor =>
      let isMulti := pyIn (toL "/") text || pyIn (toL "／") text
      let subPriority :=
        if isMulti then
          match colorOrder.find? fun c => pyIn c text && c ≠ firstColor with
          | some second => colorOrder.indexOf second + 1
          | none => 0
        else 0
      (colorOrder.indexOf firstColor, typePriority t, subPriority,
        if isMulti then 1 else 0)

/-- C6: the source's `color_sort_key` returns exactly the tuple the spec
describes, and unknown types rank strictly after the four known types. -/
theorem colorSortKey_eq_spec (text t : Str) :
    colorSortKey text t = colorSortKeySpec text t ∧
    (t ∉ [toL "LEADER", toL "CHARACTER", toL "EVENT", toL "STAGE"] →
      ∀ t' ∈ [toL "LEADER", toL "CHARACTER", toL "EVENT", toL "STAGE"],
        typePriority t' < typePriority t) := by
  constructor
  · unfold colorSortKey colorSortKeySpec
    split
    · rfl
    · rw [← List.filter_head? (fun c => pyIn c text) colorOrder]
      cases hf : (colorOrder.filter fun c => pyIn c text) with
      | nil => rfl
      | cons fc rest =>
        simp only [List.head?_cons]
        cases hm : (pyIn (toL "/") text || pyIn (toL "／") text) with
        | false => simp [colorPriority]
        | true =>
          rw [← List.filter_head? (fun c => pyIn c text && c ≠ fc) colorOrder]
          cases hf₂ : (colorOrder.filter fun c => pyIn c text && c ≠ fc) with
          | nil =>
            simp only [List.head?_nil]
            rw [if_neg (by simp), if_pos (by decide)]
            simp [colorPriority]
          | cons c₂ r₂ =>
            simp only [List.head?_cons]
            rw [if_pos ⟨by decide, by simp⟩, if_pos (by decide)]
            rfl
  · intro hunk t' ht'
    have h9 : typePriority t = 9 := by
      unfold typePriority
      rw [if_neg (fun hc => hunk (by rw [hc]; simp)),
        if_neg (fun hc => hunk (by rw [hc]; simp)),
        if_neg (fun hc => hunk (by rw [hc]; simp)),
        if_neg (fun hc => hunk (by rw [hc]; simp))]
    rw [h9]
    rcases List.mem_cons.1 ht' with rfl | h₁
    · decide
    rcases List.mem_cons.1 h₁ with rfl | h₂
    · decide
    rcases List.mem_cons.1 h₂ with rfl | h₃
    · decide
    rcases List.mem_cons.1 h₃ with rfl | h₄
    · decide
    · simp at h₄

/-- C6 (witness): the spec equality and the unknown-type ranking at the
multicolor input `緑／黄` with unknown type `XXX`. -/
theorem colorSortKey_eq_spec_witness :
    colorSortKey (toL "緑／黄") (toL "XXX") =
      colorSortKeySpec (toL "緑／黄") (toL "XXX") ∧
    typePriority (toL "LEADER") < typePriority (toL "XXX") :=
  ⟨(colorSortKey_eq_spec (toL "緑／黄") (toL "XXX")).1,
   (colorSortKey_eq_spec (toL "緑／黄") (toL "XXX")).2 (by decide)
     (toL "LEADER") (by decide)⟩

-- ===============================================================
-- C7: the leader-colors constraint
-- ===============================================================

theorem mem_of_mem_ite_filter {l : List Card} {p : Card → Bool} {c : Prop}
    [Decidable c] {x : Card} (h : x ∈ (if c then l.filter p else l)) : x ∈ l := by
  split at h
  · exact (List.mem_filter.1 h).1
  · exact h

theorem mem_of_foldl_filter {f : Str → Card → Bool} :
    ∀ {ks : List Str} {r : List Card} {x : Card},
    x ∈ ks.foldl (fun r k => r.filter (f k)) r → x ∈ r := by
  intro ks
  induction ks with
  | nil => intro r x h; exact h
  | cons k rest ih =>
    intro r x h
    exact (List.mem_filter.1 (ih h)).1

/-- C7: whenever the `leader_colors` constraint is supplied (a non-empty
list), no LEADER-typed row appears in the filter result, and every result
row's color shares at least one of the leader's colors as a substring.
(The constraint is the first filter applied, before all others, in the
source; the property proved here is its observable consequence on the
result set, whatever the other predicate values are.) -/
theorem filter_cards_leader_exclusion {df : List Card} {colors types : List Str}
    {costs : List Nat} {counters attributes blocks featureSelected : List Str}
    {freeWords : Str} {seriesIds : List Str} {lcs : List Str} (hne : lcs ≠ [])
    {row : Card}
    (hrow : row ∈ filterCards df colors types costs counters attributes blocks
      featureSelected freeWords seriesIds (some lcs)) :
    row.ctype ≠ toL "LEADER" ∧ ∃ lc ∈ lcs, pyIn lc row.color = true := by
  unfold filterCards at hrow
  replace hrow := (List.perm_insertionSort _ _).mem_iff.1 hrow
  replace hrow := mem_of_foldl_filter hrow
  replace hrow := mem_of_mem_ite_filter hrow
  replace hrow := mem_of_mem_ite_filter hrow
  replace hrow := mem_of_mem_ite_filter hrow
  replace hrow := mem_of_mem_ite_filter hrow
  replace hrow := mem_of_mem_ite_filter hrow
  replace hrow := mem_of_mem_ite_filter hrow
  replace hrow := mem_of_mem_ite_filter hrow
  replace hrow := mem_of_mem_ite_filter hrow
  rw [if_pos (show (Option.getD (some lcs) [] ≠ []) from by simpa using hne)] at hrow
  obtain ⟨hmem₂, hcolor⟩ := List.mem_filter.1 hrow
  obtain ⟨_, htype⟩ := List.mem_filter.1 hmem₂
  refine ⟨of_decide_eq_true htype, ?_⟩
  obtain ⟨lc, hlc, hin⟩ := List.any_eq_true.1 hcolor
  exact ⟨lc, by simpa using hlc, hin⟩

/-- C7 (witness): with leader colors `["赤"]` on the §8.6 catalog, the sole
result `CARD-001` is not a LEADER and shares the color `赤`. -/
theorem filter_cards_leader_exclusion_witness :
    testChar1.ctype ≠ toL "LEADER" ∧
      ∃ lc ∈ [toL "赤"], pyIn lc testChar1.color = true :=
  @filter_cards_leader_exclusion testCatalog [] [] [] [] [] [] [] [] []
    [toL "赤"] (by decide) testChar1 (by decide)

-- ===============================================================
-- C8: free-text keywords are regexes, not literal substrings (code bug)
-- ===============================================================

/-- A catalog row none of whose four searched text columns contains a
literal dot. -/
def dotlessCard : Card := mkTestCard "CARD-003" "赤" "CHARACTER" 1

/-- C8: evaluating the code at the failing input.  `filter_cards` passes
each keyword to pandas `str.contains`, whose default is `regex=True`; the
keyword `.` therefore matches every card, including one whose name,
features, text and trigger contain no literal `.` — under the claimed
case-insensitive-substring semantics the card would have been dropped. -/
theorem freeword_regex_dot_keeps_dotless_card :
    filterCards [dotlessCard] [] [] [] [] [] [] [] (toL ".") [] none =
      [dotlessCard] ∧
    pyIn (toL ".") dotlessCard.name = false ∧
    pyIn (toL ".") dotlessCard.featuresRaw = false ∧
    pyIn (toL ".") dotlessCard.text = false ∧
    pyIn (toL ".") dotlessCard.trigger = false := by
  refine ⟨by decide, by decide, by decide, by decide, by decide⟩

-- ===============================================================
-- C9: the image compositor's card grid
-- ===============================================================

theorem count_flatten_replicate_zero :
    ∀ (rs : List DeckRow) (cid : Str), (∀ r ∈ rs, r.cardId ≠ cid) →
    List.count cid ((rs.map fun r => List.replicate r.count.toNat r.cardId).flatten)
      = 0 := by
  intro rs
  induction rs with
  | nil => intro cid _; rfl
  | cons r rest ih =>
    intro cid h
    simp only [List.map_cons, List.flatten_cons, List.count_append]
    rw [List.count_replicate]
    rw [if_neg (by simpa using h r (by simp))]
    rw [ih cid fun q hq => h q (List.mem_cons_of_mem _ hq)]

theorem count_flatten_replicate_of_nodup :
    ∀ (rs : List DeckRow) {r₀ : DeckRow}, r₀ ∈ rs →
    ((rs.map fun r => r.cardId).Nodup) →
    List.count r₀.cardId ((rs.map fun r => List.replicate r.count.toNat r.cardId).flatten)
      = r₀.count.toNat := by
  intro rs
  induction rs with
  | nil => intro r₀ h _; simp at h
  | cons r rest ih =>
    intro r₀ hmem hnd
    have hnd' : (∀ x ∈ rest, ¬x.cardId = r.cardId) ∧
        (rest.map fun q => q.cardId).Nodup := by simpa using hnd
    simp only [List.map_cons, List.flatten_cons, List.count_append]
    rcases List.mem_cons.1 hmem with rfl | hm
    · rw [List.count_replicate_self]
      rw [count_flatten_replicate_zero rest r₀.cardId
        fun q hq => fun hc => (hnd'.1 q hq) hc]
      omega
    · rw [List.count_replicate,
        if_neg (by simpa using fun hc => (hnd'.1 r₀ hm) hc.symm), ih hm hnd'.2]
      omega

/-- C9: the card grid.  The deck expands, in deck-display order, into a
flat id sequence with each entry repeated `count` times; at most
`cards_per_row * cards_per_col = 50` of them get grid cells, laid out
row-major at `(x_start + col*(width+margin), y_start + row*(height+margin))`;
the download set holds each required (first-50) card id exactly once; and
every entry — also those beyond the grid capacity — keeps its line in the
codec text the image embeds in its QR code. -/
theorem deck_image_grid {df : List Card} {entries : List (Str × Int)}
    {rows : List DeckRow} (hrows : deckRowsOf df entries = some rows)
    (hnodup : (entries.map Prod.fst).Nodup) :
    (gridPlacements rows).length =
      min (cardsPerRow * cardsPerCol) (allDeckCards rows).length ∧
    (∀ i (h₁ : i < (gridPlacements rows).length)
        (h₂ : i < ((allDeckCards rows).take (cardsPerRow * cardsPerCol)).length),
      (gridPlacements rows).get ⟨i, h₁⟩ =
        (((allDeckCards rows).take (cardsPerRow * cardsPerCol)).get ⟨i, h₂⟩,
          i / cardsPerRow, i % cardsPerRow,
          xStart + (i % cardsPerRow) * (cardWidth + marginCard),
          yStart + (i / cardsPerRow) * (cardHeight + marginCard))) ∧
    (cardsToDownload rows).Nodup ∧
    (∀ cid, cid ∈ cardsToDownload rows ↔
      cid ∈ (allDeckCards rows).take (cardsPerRow * cardsPerCol)) ∧
    (∀ p ∈ entries, (allDeckCards rows).count p.1 = p.2.toNat) ∧
    (∀ leader : Card, ∀ deckName : Str,
      imageDeckText df leader entries deckName =
        some (joinNL (codecLines leader.id (sortDeckRows rows) deckName)) ∧
      ∀ p ∈ entries, ∃ r, (r.cardId, r.count) = p ∧
        entryLine r ∈ codecLines leader.id (sortDeckRows rows) deckName) := by
  obtain ⟨hmap, _⟩ := deckRowsOf_spec hrows
  have hperm_pairs : List.Perm ((sortDeckRows rows).map fun r => (r.cardId, r.count))
      entries := by
    have h₁ := (sortDeckRows_perm rows).map fun r => (r.cardId, r.count)
    rw [hmap] at h₁
    exact h₁
  have hnd_sorted : ((sortDeckRows rows).map fun r => r.cardId).Nodup := by
    have h₂ : (rows.map fun r => r.cardId) = entries.map Prod.fst := by
      rw [← hmap, List.map_map]
      rfl
    exact (((sortDeckRows_perm rows).map fun r => r.cardId).nodup_iff).2
      (h₂ ▸ hnodup)
  refine ⟨?_, ?_, List.nodup_dedup _, fun cid => List.mem_dedup, ?_, ?_⟩
  · unfold gridPlacements
    rw [List.length_map, List.enum_length, List.length_take]
  · intro i h₁ h₂
    unfold gridPlacements List.enum
    simp only [List.get_eq_getElem, List.getElem_map, List.getElem_enumFrom]
    simp
  · intro p hp
    obtain ⟨r, hr, hpair⟩ := List.mem_map.1 (hperm_pairs.mem_iff.2 hp)
    obtain rfl := hpair
    unfold allDeckCards
    exact count_flatten_replicate_of_nodup (sortDeckRows rows) hr hnd_sorted
  · intro leader deckName
    constructor
    · unfold imageDeckText
      exact serializeDeck_eq hrows
    · intro p hp
      obtain ⟨r, hr, hpair⟩ := List.mem_map.1 (hperm_pairs.mem_iff.2 hp)
      refine ⟨r, hpair, ?_⟩
      unfold codecLines
      exact List.mem_append.2
        (Or.inr (List.mem_cons_of_mem _ (List.mem_map_of_mem _ hr)))

/-- The rows of the concrete two-entry deck used to witness the grid. -/
def gridRows : List DeckRow :=
  (deckRowsOf testCatalog [(toL "CARD-001", 4), (toL "CARD-002", 2)]).getD []

/-- C9 (witness): grid length and download dedup for the concrete deck
`{CARD-001: 4, CARD-002: 2}`. -/
theorem deck_image_grid_witness :
    (gridPlacements gridRows).length =
      min (cardsPerRow * cardsPerCol) (allDeckCards gridRows).length ∧
    (cardsToDownload gridRows).Nodup :=
  ⟨(@deck_image_grid testCatalog [(toL "CARD-001", 4), (toL "CARD-002", 2)]
      gridRows (by decide) (by decide)).1,
   (@deck_image_grid testCatalog [(toL "CARD-001", 4), (toL "CARD-002", 2)]
      gridRows (by decide) (by decide)).2.2.1⟩
